import Mathlib

/-!
Verification development for the Coasean multi-dimensional negotiation backend
(`backend/main.py`): the bulletin-board data model (`NegotiationSpace`), the
agent operations, and the negotiation driver (`run_negotiation`).

Modelling conventions:
* Python `float` amounts, budgets and satisfaction averages are modelled as
  exact rationals (`ℚ`); the float literal `0.2` is modelled as `1/5`.
* Python `int` satisfaction scores are modelled as `ℤ` (Python integers are
  unbounded, and the parser `int(...)` applies no range restriction).
* Python `dict`s are modelled as association lists with insertion-order
  semantics: inserting an existing key updates the value in place, inserting a
  new key appends at the end (exactly CPython's dict behaviour).
* Wall-clock timestamps (`datetime.now()`) carry no information any property
  depends on; they are modelled as the constant `0`.
* The LLM ("judgment oracle") is external; at the driver layer every oracle
  call is abstracted to its parsed outcome (success with parsed fields,
  unrecoverable failure, or - for the continuation judgment only - a caught
  parse failure).  The string-level parsing of `evaluate_proposal` is modelled
  separately and exactly, at character level.
-/

namespace Negotiation

/-! ### Association-list dictionaries (CPython `dict` semantics) -/

/-- `d[k]` lookup: first (and, for dict-built lists, only) binding of `k`. -/
def alookup {α β : Type} [DecidableEq α] : List (α × β) → α → Option β
  | [], _ => none
  | (k, v) :: t, a => if k = a then some v else alookup t a

/-- `d[k] = v`: update in place if `k` is present, else append at the end. -/
def dictInsert {α β : Type} [DecidableEq α] : List (α × β) → α → β → List (α × β)
  | [], k, v => [(k, v)]
  | (k', v') :: t, k, v => if k' = k then (k', v) :: t else (k', v') :: dictInsert t k v

/-- `if k not in d: d[k] = 0` followed by `d[k] += v`. -/
def dictAdd {α : Type} [DecidableEq α] : List (α × ℚ) → α → ℚ → List (α × ℚ)
  | [], k, v => [(k, v)]
  | (k', v') :: t, k, v => if k' = k then (k', v' + v) :: t else (k', v') :: dictAdd t k v

/-- The keys of an association list, in order. -/
def dictKeys {α β : Type} (d : List (α × β)) : List α := d.map (·.1)

@[simp]
theorem dictKeys_nil {α β : Type} : dictKeys ([] : List (α × β)) = [] := rfl

@[simp]
theorem dictKeys_cons {α β : Type} (x : α × β) (d : List (α × β)) :
    dictKeys (x :: d) = x.1 :: dictKeys d := rfl

theorem alookup_dictInsert_self {α β : Type} [DecidableEq α] (d : List (α × β)) (k : α) (v : β) :
    alookup (dictInsert d k v) k = some v := by
  induction d with
  | nil => simp [dictInsert, alookup]
  | cons h t ih =>
    by_cases hk : h.1 = k
    · simp [dictInsert, hk, alookup]
    · simp [dictInsert, hk, alookup, ih]

theorem alookup_dictInsert_ne {α β : Type} [DecidableEq α] (d : List (α × β)) (k k' : α) (v : β)
    (h : k ≠ k') : alookup (dictInsert d k v) k' = alookup d k' := by
  induction d with
  | nil => simp [dictInsert, alookup, h]
  | cons hd t ih =>
    by_cases hk : hd.1 = k
    · simp [dictInsert, hk, alookup, h]
    · simp [dictInsert, hk, alookup, ih]

theorem dictInsert_dictInsert_same {α β : Type} [DecidableEq α] (d : List (α × β)) (k : α)
    (v w : β) : dictInsert (dictInsert d k v) k w = dictInsert d k w := by
  induction d with
  | nil => simp [dictInsert]
  | cons h t ih =>
    by_cases hk : h.1 = k
    · simp [dictInsert, hk]
    · simp [dictInsert, hk, ih]

theorem mem_dictInsert {α β : Type} [DecidableEq α] (d : List (α × β)) (k : α) (v : β)
    (x : α × β) (hx : x ∈ dictInsert d k v) : x ∈ d ∨ x = (k, v) := by
  induction d with
  | nil => simpa [dictInsert] using hx
  | cons h t ih =>
    by_cases hk : h.1 = k
    · simp only [dictInsert, hk, if_pos rfl] at hx
      rcases List.mem_cons.1 hx with h1 | h1
      · right; simpa [← hk] using h1
      · left; exact List.mem_cons_of_mem _ h1
    · simp only [dictInsert, if_neg hk] at hx
      rcases List.mem_cons.1 hx with h1 | h1
      · left; simp [h1]
      · rcases ih h1 with h2 | h2
        · left; exact List.mem_cons_of_mem _ h2
        · right; exact h2

theorem mem_of_alookup_eq_some {α β : Type} [DecidableEq α] (d : List (α × β)) (k : α) (v : β)
    (h : alookup d k = some v) : (k, v) ∈ d := by
  induction d with
  | nil => simp [alookup] at h
  | cons hd t ih =>
    by_cases hk : hd.1 = k
    · simp only [alookup, if_pos hk, Option.some.injEq] at h
      have hhd : hd = (k, v) := by
        cases hd
        simp only at hk h
        simp [hk, h]
      rw [hhd]
      exact List.mem_cons_self _ _
    · simp only [alookup, if_neg hk] at h
      exact List.mem_cons_of_mem _ (ih h)

theorem alookup_isSome_of_mem {α β : Type} [DecidableEq α] (d : List (α × β)) (x : α × β)
    (h : x ∈ d) : (alookup d x.1).isSome := by
  induction d with
  | nil => simp at h
  | cons hd t ih =>
    rcases List.mem_cons.1 h with h1 | h1
    · simp [alookup, h1]
    · by_cases hk : hd.1 = x.1
      · simp [alookup, hk]
      · simp [alookup, hk, ih h1]

theorem dictKeys_dictInsert_of_mem {α β : Type} [DecidableEq α] (d : List (α × β)) (k : α) (v : β)
    (h : k ∈ dictKeys d) : dictKeys (dictInsert d k v) = dictKeys d := by
  induction d with
  | nil => simp at h
  | cons hd t ih =>
    by_cases hk : hd.1 = k
    · simp [dictInsert, hk]
    · have h' : k ∈ dictKeys t := by
        rcases List.mem_cons.1 (by simpa using h) with h1 | h1
        · exact absurd h1.symm hk
        · exact h1
      simp [dictInsert, hk, ih h']

theorem dictKeys_dictInsert_of_not_mem {α β : Type} [DecidableEq α] (d : List (α × β)) (k : α)
    (v : β) (h : k ∉ dictKeys d) : dictKeys (dictInsert d k v) = dictKeys d ++ [k] := by
  induction d with
  | nil => simp [dictInsert]
  | cons hd t ih =>
    have hk : hd.1 ≠ k := by
      intro hc
      exact h (by simp [hc])
    have h' : k ∉ dictKeys t := by
      intro hc
      exact h (by simp [hc])
    simp [dictInsert, hk, ih h']

theorem nodup_dictKeys_dictInsert {α β : Type} [DecidableEq α] (d : List (α × β)) (k : α) (v : β)
    (h : (dictKeys d).Nodup) : (dictKeys (dictInsert d k v)).Nodup := by
  by_cases hk : k ∈ dictKeys d
  · rwa [dictKeys_dictInsert_of_mem d k v hk]
  · rw [dictKeys_dictInsert_of_not_mem d k v hk]
    exact List.Nodup.append h (List.nodup_singleton k)
      (by intro a ha hb; simp at hb; subst hb; exact hk ha)

theorem alookup_eq_none_of_not_mem {α β : Type} [DecidableEq α] (d : List (α × β)) (k : α)
    (h : k ∉ dictKeys d) : alookup d k = none := by
  induction d with
  | nil => simp [alookup]
  | cons hd t ih =>
    have hk : hd.1 ≠ k := by
      intro hc
      exact h (by simp [hc])
    have h' : k ∉ dictKeys t := by
      intro hc
      exact h (by simp [hc])
    simp [alookup, hk, ih h']

/-! ### Loosely-typed attribute values

`base_project` entries, modification blocks and side-payment amounts come from
parsed LLM output or caller-supplied dicts; a value is a number, a string, a
boolean, or `None`. -/

inductive Value where
  | num (q : ℚ)
  | text (s : String)
  | boolean (b : Bool)
  | null
deriving Repr, DecidableEq

/-- Python whitespace, as stripped by `str.strip()` / accepted by `float()`. -/
def isPySpace (c : Char) : Bool :=
  c = ' ' || c = '\t' || c = '\n' || c = '\r' || c = '\x0b' || c = '\x0c'

/-- `str.strip()` on a character list. -/
def stripChars (l : List Char) : List Char :=
  ((l.dropWhile isPySpace).reverse.dropWhile isPySpace).reverse

/-- Numeric value of a digit string (`0` for the empty list). -/
def natOfDigits (l : List Char) : ℕ :=
  l.foldl (fun acc c => acc * 10 + (c.toNat - 48)) 0

/-- Python `float(s)` on a string, restricted to plain decimal literals
(optional sign, digits, optional fractional part).  Exponent, `inf` and `nan`
forms are omitted: no code path under verification produces them. -/
def pyFloatOfString? (s : String) : Option ℚ :=
  let l := stripChars s.toList
  let signed : ℚ × List Char :=
    match l with
    | '+' :: t => (1, t)
    | '-' :: t => (-1, t)
    | _ => (1, l)
  let intPart := signed.2.takeWhile (·.isDigit)
  let rest := signed.2.dropWhile (·.isDigit)
  match rest with
  | [] =>
    if intPart = [] then none
    else some (signed.1 * (natOfDigits intPart : ℚ))
  | '.' :: fracPart =>
    if fracPart.all (·.isDigit) ∧ ¬(intPart = [] ∧ fracPart = []) then
      some (signed.1 * ((natOfDigits intPart : ℚ) +
        (natOfDigits fracPart : ℚ) / (10 ^ fracPart.length : ℚ)))
    else none
  | _ => none

/-- Python `float(x)` on a loosely-typed value: numbers pass through, booleans
coerce to `0`/`1`, strings are parsed, `None` raises (`TypeError`). -/
def pyFloat? : Value → Option ℚ
  | .num q => some q
  | .boolean b => some (if b then 1 else 0)
  | .text s => pyFloatOfString? s
  | .null => none

/-! ### Data model (`Proposal`, `Evaluation`, `NegotiationSpace`) -/

/-- `Evaluation` dataclass of `backend/main.py`. -/
structure Evaluation where
  agent_name : String
  proposal_id : ℕ
  satisfaction_score : ℤ
  explanation : String
  unsatisfied_preferences : List String
  suggested_changes : List String
  timestamp : ℕ
  willing_to_accept_payment : Bool := false
  willing_to_pay : Bool := false
  willingness_to_pay_estimate : String := ""
deriving Repr, DecidableEq

/-- `Proposal` dataclass of `backend/main.py`.  `side_payments` is keyed by the
ordered pair (payer, payee); the components are `Option String` because
`payment_info.get("from")` / `.get("to")` yield `None` for a missing key. -/
structure Proposal where
  id : ℕ
  author : String
  round : ℕ
  timestamp : ℕ
  base_project : List (String × Value)
  modifications : List (List (String × Value))
  compensation : List (String × ℚ)
  side_payments : List ((Option String × Option String) × ℚ) := []
  commitments : List String := []
  total_cost : ℚ := 0
  reasoning : String := ""
deriving Repr, DecidableEq

/-- One parsed `side_payments` entry of a `post_proposal` input dict. -/
structure SidePaymentInfo where
  from_agent : Option String
  to_agent : Option String
  amount : Option Value
  reason : Option String := none
deriving Repr, DecidableEq

/-- The loosely-typed input dict of `post_proposal`.  A `none` field models a
missing key (every access in the source goes through `.get(key, default)`). -/
structure ProposalData where
  base_project : Option (List (String × Value)) := none
  modifications : Option (List (List (String × Value))) := none
  compensation : Option (List (String × ℚ)) := none
  side_payments : Option (List SidePaymentInfo) := none
  commitments : Option (List String) := none
  total_cost : Option ℚ := none
  reasoning : Option String := none
deriving Repr, DecidableEq

/-- `DecentralizedAgent` minus its LLM handle (the oracle is abstracted). -/
structure DecentralizedAgent where
  name : String
  role : String
  preferences : List (String × Option ℚ) := []
  max_side_payment_budget : ℚ := 0
deriving Repr, DecidableEq

/-- `NegotiationSpace` dataclass: the shared bulletin board. -/
structure NegotiationSpace where
  proposals : List Proposal := []
  evaluations : List (ℕ × List (String × Evaluation)) := []
  current_round : ℕ := 0
deriving Repr, DecidableEq

/-- The side-payments parsing loop of `post_proposal` (lines 72-83): for each
entry, coerce the amount with `float(...)` and store it under the ordered pair
`(from, to)`; an entry whose amount does not coerce is skipped. -/
def parseSidePayments (entries : List SidePaymentInfo) :
    List ((Option String × Option String) × ℚ) :=
  entries.foldl
    (fun side_payments payment_info =>
      match pyFloat? ((payment_info.amount).getD (Value.num 0)) with
      | some amount => dictInsert side_payments (payment_info.from_agent, payment_info.to_agent) amount
      | none => side_payments)
    []

/-- The `Proposal` record constructed by `post_proposal` (lines 85-97). -/
def build_proposal (space : NegotiationSpace) (author : String) (proposal_data : ProposalData) :
    Proposal :=
  { id := space.proposals.length
    author := author
    round := space.current_round
    timestamp := 0
    base_project := proposal_data.base_project.getD []
    modifications := proposal_data.modifications.getD []
    compensation := proposal_data.compensation.getD []
    side_payments :=
      match proposal_data.side_payments with
      | none => []
      | some entries => parseSidePayments entries
    commitments := proposal_data.commitments.getD []
    total_cost := proposal_data.total_cost.getD 0
    reasoning := proposal_data.reasoning.getD "" }

/-- `NegotiationSpace.post_proposal` (lines 68-99): appends the constructed
proposal and returns the new state together with the returned id. -/
def NegotiationSpace.post_proposal (space : NegotiationSpace) (author : String)
    (proposal_data : ProposalData) : NegotiationSpace × ℕ :=
  ({ space with proposals := space.proposals ++ [build_proposal space author proposal_data] },
   space.proposals.length)

/-- `NegotiationSpace.post_evaluation` (lines 101-105): upsert keyed by
`(proposal_id, agent_name)`. -/
def NegotiationSpace.post_evaluation (space : NegotiationSpace) (evaluation : Evaluation) :
    NegotiationSpace :=
  let inner := (alookup space.evaluations evaluation.proposal_id).getD []
  { space with
      evaluations :=
        dictInsert space.evaluations evaluation.proposal_id
          (dictInsert inner evaluation.agent_name evaluation) }

/-- `NegotiationSpace.get_latest_proposal` (lines 107-109). -/
def NegotiationSpace.get_latest_proposal (space : NegotiationSpace) : Option Proposal :=
  space.proposals.getLast?

/-- `NegotiationSpace.check_unanimous_acceptance` (lines 111-123): every
required agent's recorded score (default `0` when absent) must reach the
threshold; a proposal with no evaluation entry at all fails outright. -/
def NegotiationSpace.check_unanimous_acceptance (space : NegotiationSpace) (proposal_id : ℕ)
    (required_agents : List String) (threshold : ℤ := 4) : Bool :=
  match alookup space.evaluations proposal_id with
  | none => false
  | some evals =>
    let default_eval : Evaluation :=
      { agent_name := "", proposal_id := proposal_id, satisfaction_score := 0, explanation := ""
        unsatisfied_preferences := [], suggested_changes := [], timestamp := 0 }
    required_agents.all
      (fun agent =>
        decide (threshold ≤ ((alookup evals agent).getD default_eval).satisfaction_score))

/-- One entry of `get_feedback_for_proposal`'s result. -/
structure Feedback where
  agent : String
  score : ℤ
  satisfied : Bool
  unsatisfied : List String
  suggested : List String
  willing_to_accept : Bool
  willing_to_pay : Bool
  willingness_estimate : String
deriving Repr, DecidableEq

/-- `NegotiationSpace.get_feedback_for_proposal` (lines 125-142). -/
def NegotiationSpace.get_feedback_for_proposal (space : NegotiationSpace) (proposal_id : ℕ) :
    List Feedback :=
  match alookup space.evaluations proposal_id with
  | none => []
  | some evals =>
    evals.map (fun p =>
      { agent := p.2.agent_name
        score := p.2.satisfaction_score
        satisfied := decide ((4 : ℤ) ≤ p.2.satisfaction_score)
        unsatisfied := p.2.unsatisfied_preferences
        suggested := p.2.suggested_changes
        willing_to_accept := p.2.willing_to_accept_payment
        willing_to_pay := p.2.willing_to_pay
        willingness_estimate := p.2.willingness_to_pay_estimate })

/-- `NegotiationSpace.advance_round` (lines 144-146). -/
def NegotiationSpace.advance_round (space : NegotiationSpace) : NegotiationSpace :=
  { space with current_round := space.current_round + 1 }

/-- Body of `validate_side_payments` (lines 148-173), factored over the
side-payments mapping.  The report strings keep the payer names; the numeric
formatting of the amounts (`f"${...:,.0f}"`) is abstracted, nothing reads it. -/
def validate_side_payments_list (side_payments : List ((Option String × Option String) × ℚ))
    (agents_dict : List (String × DecentralizedAgent)) : Bool × String :=
  if side_payments = [] then (true, "No side payments to validate")
  else
    let agent_outflows : List (Option String × ℚ) :=
      side_payments.foldl (fun outflows kv => dictAdd outflows kv.1.1 kv.2) []
    let checked : Bool × List String :=
      agent_outflows.foldl
        (fun acc kv =>
          match kv.1 with
          | none => acc
          | some agent_name =>
            match alookup agents_dict agent_name with
            | none => acc
            | some agent =>
              if agent.max_side_payment_budget < kv.2 then
                (false, acc.2 ++ ["⚠ " ++ agent_name ++ " exceeds payment budget"])
              else
                (acc.1, acc.2 ++ ["✓ " ++ agent_name ++ " within budget"]))
        (true, [])
    (checked.1, String.intercalate "\n" checked.2)

/-- `NegotiationSpace.validate_side_payments` (lines 148-173): sums outgoing
amounts per payer and flags any registered payer whose total exceeds its
budget. -/
def NegotiationSpace.validate_side_payments (_space : NegotiationSpace) (proposal : Proposal)
    (agents_dict : List (String × DecentralizedAgent)) : Bool × String :=
  validate_side_payments_list proposal.side_payments agents_dict

/-! ### Character-level parsing of oracle responses

`parse_xml_tag`, `parse_xml_list`, `parse_bool` (lines 215-239) and the
response-parsing phase of `evaluate_proposal` (lines 423-476).  The regex
`<{tag}>(.*?)</{tag}>` (DOTALL, non-greedy) matches the earliest `<tag>`
paired with the earliest `</tag>` after it; since `</tag>` begins with `</`
it cannot overlap an occurrence of `<tag>`, so if no `</tag>` follows the
earliest `<tag>` then none follows any later one either and the regex fails -
exactly the behaviour modelled below. -/

/-- Index of the first occurrence of `pat` as a contiguous sublist of `hay`. -/
def findIdx? (hay pat : List Char) : Option ℕ :=
  if pat.isPrefixOf hay then some 0
  else
    match hay with
    | [] => none
    | _ :: t => (findIdx? t pat).map (· + 1)

theorem findIdx?_add_length_le (hay pat : List Char) (i : ℕ)
    (h : findIdx? hay pat = some i) : i + pat.length ≤ hay.length := by
  induction hay generalizing i with
  | nil =>
    rw [findIdx?] at h
    by_cases hp : pat.isPrefixOf ([] : List Char)
    · have hpat : pat = [] := by
        have := (List.isPrefixOf_iff_prefix.1 hp).length_le
        exact List.eq_nil_of_length_eq_zero (Nat.le_zero.1 this)
      rw [if_pos hp] at h
      simp only [Option.some.injEq] at h
      subst h
      simp [hpat]
    · rw [if_neg hp] at h
      simp at h
  | cons c t ih =>
    rw [findIdx?] at h
    by_cases hp : pat.isPrefixOf (c :: t)
    · have hlen := (List.isPrefixOf_iff_prefix.1 hp).length_le
      rw [if_pos hp] at h
      simp only [Option.some.injEq] at h
      subst h
      simpa using hlen
    · rw [if_neg hp, Option.map_eq_some'] at h
      obtain ⟨i', hi', rfl⟩ := h
      have := ih i' hi'
      simp only [List.length_cons]
      omega

/-- The characters `<tag>`. -/
def openTag (tag : String) : List Char := '<' :: (tag.toList ++ ['>'])

/-- The characters `</tag>`. -/
def closeTag (tag : String) : List Char := '<' :: ('/' :: (tag.toList ++ ['>']))

/-- Splits off the first `<tag>...</tag>` group: returns the (unstripped)
content together with the remainder after `</tag>`. -/
def splitAtTag? (t : List Char) (tag : String) : Option (List Char × List Char) :=
  match findIdx? t (openTag tag) with
  | none => none
  | some i =>
    let rest := t.drop (i + (openTag tag).length)
    match findIdx? rest (closeTag tag) with
    | none => none
    | some j => some (rest.take j, rest.drop (j + (closeTag tag).length))

theorem splitAtTag?_rem_length_lt (t : List Char) (tag : String) (c rem : List Char)
    (h : splitAtTag? t tag = some (c, rem)) : rem.length < t.length := by
  rw [splitAtTag?] at h
  cases hi : findIdx? t (openTag tag) with
  | none => simp [hi] at h
  | some i =>
    simp only [hi] at h
    cases hj : findIdx? (t.drop (i + (openTag tag).length)) (closeTag tag) with
    | none => simp [hj] at h
    | some j =>
      simp only [hj, Option.some.injEq, Prod.mk.injEq] at h
      have h1 := findIdx?_add_length_le t (openTag tag) i hi
      have h2 : (openTag tag).length = tag.toList.length + 2 := by
        simp [openTag]
      have hrem : rem = (t.drop (i + (openTag tag).length)).drop (j + (closeTag tag).length) :=
        h.2.symm
      have h3 : (closeTag tag).length = tag.toList.length + 3 := by
        simp [closeTag]
      rw [hrem]
      simp only [List.length_drop]
      omega

/-- `parse_xml_tag` (lines 215-221): the first `<tag>...</tag>` group,
stripped; `none` models the raised `ValueError` when the tag is absent. -/
def parse_xml_tag (text tag : String) : Option String :=
  match splitAtTag? text.toList tag with
  | none => none
  | some p => some (String.mk (stripChars p.1))

/-- Iteration of `re.findall`: split off groups until none is left.  The
fuel argument makes the recursion structural (so that it evaluates inside the
kernel); by `splitAtTag?_rem_length_lt` the remainder shrinks at every step,
so fuel `t.length + 1` never runs out. -/
def xmlListGo : ℕ → List Char → String → List String
  | 0, _, _ => []
  | fuel + 1, t, tag =>
    match splitAtTag? t tag with
    | none => []
    | some p => String.mk (stripChars p.1) :: xmlListGo fuel p.2 tag

/-- `parse_xml_list` (lines 224-228): all non-overlapping `<tag>...</tag>`
groups, stripped, in order. -/
def parse_xml_list (text tag : String) : List String :=
  xmlListGo (text.toList.length + 1) text.toList tag

/-- `parse_bool` (lines 231-239): `none` models the raised `ValueError`. -/
def parse_bool? (value : String) : Option Bool :=
  let value_lower := String.mk (stripChars (value.toList.map Char.toLower))
  if value_lower = "true" ∨ value_lower = "yes" ∨ value_lower = "1" then some true
  else if value_lower = "false" ∨ value_lower = "no" ∨ value_lower = "0" then some false
  else none

/-- Python `int(s)`: strip, optional sign, then a nonempty digit run
(underscore digit grouping omitted: no modelled input uses it). -/
def pyIntOfString? (s : String) : Option ℤ :=
  let l := stripChars s.toList
  let signed : ℤ × List Char :=
    match l with
    | '+' :: t => (1, t)
    | '-' :: t => (-1, t)
    | _ => (1, l)
  if signed.2 ≠ [] ∧ signed.2.all (·.isDigit) then
    some (signed.1 * (natOfDigits signed.2 : ℤ))
  else none

/-- The response-parsing phase of `evaluate_proposal` (lines 423-476): the
required fields (`satisfaction_score`, parsed with `int(...)`, and
`explanation`) fail the whole parse when absent or malformed (the caught
exception is re-raised); the bargaining-signal fields inside
`side_payment_interest` degrade to `false`/`""` when absent or unparseable.
No range restriction is applied to the parsed score. -/
def parse_evaluation_response (response : String) (agent_name : String) (pid : ℕ) :
    Option Evaluation :=
  match parse_xml_tag response "satisfaction_score" with
  | none => none
  | some score_str =>
    match pyIntOfString? score_str with
    | none => none
    | some satisfaction_score =>
      match parse_xml_tag response "explanation" with
      | none => none
      | some explanation =>
        let unsatisfied_prefs := parse_xml_list response "preference"
        let suggested_changes := parse_xml_list response "change"
        let signals : Bool × Bool × String :=
          match parse_xml_tag response "side_payment_interest" with
          | none => (false, false, "")
          | some payment_interest_xml =>
            (((parse_xml_tag payment_interest_xml "willing_to_accept").bind parse_bool?).getD false,
             ((parse_xml_tag payment_interest_xml "willing_to_pay").bind parse_bool?).getD false,
             (parse_xml_tag payment_interest_xml "willingness_to_pay_estimate").getD "")
        some
          { agent_name := agent_name
            proposal_id := pid
            satisfaction_score := satisfaction_score
            explanation := explanation
            unsatisfied_preferences := unsatisfied_prefs
            suggested_changes := suggested_changes
            timestamp := 0
            willing_to_accept_payment := signals.1
            willing_to_pay := signals.2.1
            willingness_to_pay_estimate := signals.2.2 }

/-! ### The negotiation driver (`run_negotiation`, lines 1160-1346)

The LLM is external; each oracle call the driver triggers is abstracted to its
parsed outcome, indexed by the negotiation round in which it is made:

* an evaluation call (`DecentralizedAgent.evaluate_proposal`) either raises -
  transport error from `LLMClient.call`, or parse error re-raised at line 476 -
  or yields the parsed fields of an `Evaluation`;
* the continuation judgment (`should_continue_negotiation`) raises on a
  transport error (`llm.call` at line 989 sits outside the `try`), but a parse
  failure is caught at lines 1001-1005 and defaults to *continue*;
* a synthesis call (`synthesize_proposal`) either raises - transport error, or
  a missing required `base_project` tag re-raised at line 868 - or yields a
  parsed proposal-data dict.
-/

/-- Outcome of an oracle call whose failures all propagate as exceptions. -/
inductive CallResult (α : Type) where
  | fail (e : String)
  | ok (a : α)
deriving Repr, DecidableEq

/-- Outcome of the continuation-judgment call: a transport error propagates,
a parse failure is caught and recovered. -/
inductive ContinueOutcome where
  | fail (e : String)
  | parseFailure
  | ok (b : Bool)
deriving Repr, DecidableEq

/-- The parsed fields of an evaluation response (what `evaluate_proposal`
extracts before building the `Evaluation`). -/
structure EvalData where
  satisfaction_score : ℤ
  explanation : String := ""
  unsatisfied_preferences : List String := []
  suggested_changes : List String := []
  willing_to_accept_payment : Bool := false
  willing_to_pay : Bool := false
  willingness_to_pay_estimate : String := ""
deriving Repr, DecidableEq

/-- The judgment oracle, abstracted per round: the prompt text built by an
agent only influences the oracle's answer, which the model supplies directly,
indexed by round number and (for evaluations) agent name. -/
structure Oracle where
  evalResult : ℕ → String → CallResult EvalData
  continueResult : ℕ → ContinueOutcome
  synthesisResult : ℕ → CallResult ProposalData

/-- The `Evaluation` built by `evaluate_proposal` (lines 455-466). -/
def mkEvaluation (agent_name : String) (pid : ℕ) (d : EvalData) : Evaluation :=
  { agent_name := agent_name
    proposal_id := pid
    satisfaction_score := d.satisfaction_score
    explanation := d.explanation
    unsatisfied_preferences := d.unsatisfied_preferences
    suggested_changes := d.suggested_changes
    timestamp := 0
    willing_to_accept_payment := d.willing_to_accept_payment
    willing_to_pay := d.willing_to_pay
    willingness_to_pay_estimate := d.willingness_to_pay_estimate }

/-- `DecentralizedAgent.evaluate_proposal` (lines 259-476) at driver level:
on success the evaluation is posted to the shared space (line 469) and
returned; on failure the exception propagates and the space is untouched. -/
def evaluate_proposal (o : Oracle) (agent : DecentralizedAgent) (round : ℕ) (proposal : Proposal)
    (space : NegotiationSpace) : NegotiationSpace × CallResult Evaluation :=
  match o.evalResult round agent.name with
  | .fail e => (space, .fail e)
  | .ok d =>
    let evaluation := mkEvaluation agent.name proposal.id d
    (space.post_evaluation evaluation, .ok evaluation)

/-- The parallel evaluation fan-out of one round (lines 1230-1258): all
neighbors plus the developer evaluate the current proposal.  Every submitted
worker runs to completion (the `with` block waits), so every *successful*
evaluation is posted even when another worker fails; completion order is
scheduler-dependent and is modelled as submission order, which no proved
property depends on. -/
def run_round_evaluations (o : Oracle) (developer : DecentralizedAgent)
    (neighbors : List DecentralizedAgent) (round : ℕ) (current_proposal : Proposal)
    (space : NegotiationSpace) : NegotiationSpace × List (CallResult Evaluation) :=
  (neighbors ++ [developer]).foldl
    (fun acc agent =>
      let r := evaluate_proposal o agent round current_proposal acc.1
      (r.1, acc.2 ++ [r.2]))
    (space, [])

/-- The first failed evaluation surfaced by the collection loop
(`future.result()` raises); neighbors are surfaced before the developer. -/
def firstFailure (results : List (CallResult Evaluation)) : Option String :=
  results.findSome? (fun r => match r with | .fail e => some e | .ok _ => none)

/-- The collected satisfaction scores of the successful evaluations. -/
def scoresOf (results : List (CallResult Evaluation)) : List ℤ :=
  results.filterMap (fun r => match r with | .ok ev => some ev.satisfaction_score | .fail _ => none)

/-- `avg_score = sum(all_scores) / len(all_scores) if all_scores else 0`
(line 1262). -/
def avgScores (scores : List ℤ) : ℚ :=
  if scores = [] then 0 else (scores.map (fun s => (s : ℚ))).sum / scores.length

/-- `DecentralizedAgent.should_continue_negotiation` (lines 870-1005) at
driver level: the two board-derived early returns (no feedback → continue,
no unsatisfied evaluator → stop) happen before any oracle call; otherwise the
oracle is consulted, a transport error propagates and a parse failure
defaults to continue. -/
def should_continue_negotiation (o : Oracle) (round : ℕ) (current_proposal : Proposal)
    (space : NegotiationSpace) : CallResult Bool :=
  let feedback := space.get_feedback_for_proposal current_proposal.id
  if feedback = [] then .ok true
  else
    let unsatisfied := feedback.filter (fun fb => decide (fb.score < 4))
    if unsatisfied = [] then .ok false
    else
      match o.continueResult round with
      | .fail e => .fail e
      | .parseFailure => .ok true
      | .ok b => .ok b

/-- `agents_dict` built at lines 1326-1328: developer first, then neighbors. -/
def mkAgentsDict (developer : DecentralizedAgent) (neighbors : List DecentralizedAgent) :
    List (String × DecentralizedAgent) :=
  neighbors.foldl (fun agents_dict neighbor => dictInsert agents_dict neighbor.name neighbor)
    [(developer.name, developer)]

/-- `initial_proposal_data` (lines 1191-1202); the dict has no
`side_payments` and no `reasoning` key. -/
def initial_proposal_data (neighbors : List DecentralizedAgent) : ProposalData :=
  { base_project := some
      [("type", Value.text "covid_policy"), ("mask_mandate", Value.text "none"),
       ("capacity_limits", Value.text "none"), ("business_restrictions", Value.text "none")]
    modifications := some []
    compensation := some (neighbors.foldl (fun comp n => dictInsert comp n.name (0 : ℚ)) [])
    commitments := some []
    total_cost := some 0 }

/-- Observable protocol events of a driver run. -/
inductive Event where
  | evalRound (round : ℕ)
  | synthesis (round : ℕ)
deriving Repr, DecidableEq

/-- Terminal classification of a driver run, tagging each of the driver's
return/raise sites. -/
inductive Final where
  | raised (e : String)
  | abortedRegression
  | success (p : Proposal)
  | paretoStop (p : Proposal)
  | abortedBudget
  | exhausted
deriving Repr, DecidableEq

/-- What the Python function actually returns (or raises) at each terminal. -/
def Final.result : Final → Except String (Option Proposal)
  | .raised e => .error e
  | .abortedRegression => .ok none
  | .success p => .ok (some p)
  | .paretoStop p => .ok (some p)
  | .abortedBudget => .ok none
  | .exhausted => .ok none

/-- The round loop of `run_negotiation` (lines 1215-1346), mirroring the
source's return sites literally: `Except.ok none` where the source returns
`None`, `Except.ok (some ...)` where it returns `current_proposal`,
`Except.error` where an exception propagates.  Also returns the event trace
and the final state of the shared space. -/
def run_rounds (o : Oracle) (developer : DecentralizedAgent)
    (neighbors : List DecentralizedAgent) (space : NegotiationSpace)
    (current_proposal : Proposal) (prev_avg_satisfaction : ℚ) :
    ℕ → List Event × NegotiationSpace × Except String (Option Proposal)
  | 0 => ([], space, .ok none)
  | rounds_left + 1 =>
    let space1 := space.advance_round
    let r := space1.current_round
    let evalStep := run_round_evaluations o developer neighbors r current_proposal space1
    let space2 := evalStep.1
    match firstFailure evalStep.2 with
    | some e => ([.evalRound r], space2, .error e)
    | none =>
      let all_scores := scoresOf evalStep.2
      let avg_score := avgScores all_scores
      if 1 < r ∧ 1/5 < prev_avg_satisfaction - avg_score then
        ([.evalRound r], space2, .ok none)
      else
        if all_scores.all (fun s => decide ((4 : ℤ) ≤ s)) then
          ([.evalRound r], space2, .ok (some current_proposal))
        else
          match should_continue_negotiation o r current_proposal space2 with
          | .fail e => ([.evalRound r], space2, .error e)
          | .ok false => ([.evalRound r], space2, .ok (some current_proposal))
          | .ok true =>
            match o.synthesisResult r with
            | .fail e => ([.evalRound r], space2, .error e)
            | .ok improved_data =>
              let space3 := (space2.post_proposal developer.name improved_data).1
              match space3.get_latest_proposal with
              | none => ([.evalRound r, .synthesis r], space3, .error "no latest proposal")
              | some newest =>
                let agents_dict := mkAgentsDict developer neighbors
                let is_valid := (space3.validate_side_payments newest agents_dict).1
                if newest.side_payments ≠ [] ∧ is_valid = false then
                  ([.evalRound r, .synthesis r], space3, .ok none)
                else
                  let rest := run_rounds o developer neighbors space3 newest avg_score rounds_left
                  (.evalRound r :: .synthesis r :: rest.1, rest.2)

/-- The round loop again, with each terminal tagged by its path
(`Final`) instead of the raw return value. -/
def run_roundsF (o : Oracle) (developer : DecentralizedAgent)
    (neighbors : List DecentralizedAgent) (space : NegotiationSpace)
    (current_proposal : Proposal) (prev_avg_satisfaction : ℚ) :
    ℕ → List Event × NegotiationSpace × Final
  | 0 => ([], space, .exhausted)
  | rounds_left + 1 =>
    let space1 := space.advance_round
    let r := space1.current_round
    let evalStep := run_round_evaluations o developer neighbors r current_proposal space1
    let space2 := evalStep.1
    match firstFailure evalStep.2 with
    | some e => ([.evalRound r], space2, .raised e)
    | none =>
      let all_scores := scoresOf evalStep.2
      let avg_score := avgScores all_scores
      if 1 < r ∧ 1/5 < prev_avg_satisfaction - avg_score then
        ([.evalRound r], space2, .abortedRegression)
      else
        if all_scores.all (fun s => decide ((4 : ℤ) ≤ s)) then
          ([.evalRound r], space2, .success current_proposal)
        else
          match should_continue_negotiation o r current_proposal space2 with
          | .fail e => ([.evalRound r], space2, .raised e)
          | .ok false => ([.evalRound r], space2, .paretoStop current_proposal)
          | .ok true =>
            match o.synthesisResult r with
            | .fail e => ([.evalRound r], space2, .raised e)
            | .ok improved_data =>
              let space3 := (space2.post_proposal developer.name improved_data).1
              match space3.get_latest_proposal with
              | none => ([.evalRound r, .synthesis r], space3, .raised "no latest proposal")
              | some newest =>
                let agents_dict := mkAgentsDict developer neighbors
                let is_valid := (space3.validate_side_payments newest agents_dict).1
                if newest.side_payments ≠ [] ∧ is_valid = false then
                  ([.evalRound r, .synthesis r], space3, .abortedBudget)
                else
                  let rest := run_roundsF o developer neighbors space3 newest avg_score rounds_left
                  (.evalRound r :: .synthesis r :: rest.1, rest.2)

/-- `run_negotiation` (lines 1160-1346): post the opening proposal, read it
back, then run up to `max_rounds` rounds. -/
def run_negotiation (o : Oracle) (developer : DecentralizedAgent)
    (neighbors : List DecentralizedAgent) (space : NegotiationSpace) (max_rounds : ℕ) :
    List Event × NegotiationSpace × Except String (Option Proposal) :=
  let space1 := (space.post_proposal developer.name (initial_proposal_data neighbors)).1
  match space1.get_latest_proposal with
  | none => ([], space1, .error "no latest proposal")
  | some current_proposal =>
    run_rounds o developer neighbors space1 current_proposal 0 max_rounds

/-- `run_negotiation` with tagged terminals. -/
def run_negotiationF (o : Oracle) (developer : DecentralizedAgent)
    (neighbors : List DecentralizedAgent) (space : NegotiationSpace) (max_rounds : ℕ) :
    List Event × NegotiationSpace × Final :=
  let space1 := (space.post_proposal developer.name (initial_proposal_data neighbors)).1
  match space1.get_latest_proposal with
  | none => ([], space1, .raised "no latest proposal")
  | some current_proposal =>
    run_roundsF o developer neighbors space1 current_proposal 0 max_rounds

/-! ### Derived notions used in theorem statements -/

/-- The evaluation recorded on the board for `(proposal_id, agent)`. -/
def lookupEvaluation (space : NegotiationSpace) (pid : ℕ) (agent : String) : Option Evaluation :=
  alookup ((alookup space.evaluations pid).getD []) agent

/-- The evaluation map is a dictionary of dictionaries: keys are unique at
both levels. -/
def evalsWellFormed (space : NegotiationSpace) : Prop :=
  (dictKeys space.evaluations).Nodup ∧ ∀ p ∈ space.evaluations, (dictKeys p.2).Nodup

/-- Total outgoing amount of a payer across a side-payments mapping. -/
def payerTotal (sp : List ((Option String × Option String) × ℚ)) (payer : Option String) : ℚ :=
  ((sp.filter (fun kv => decide (kv.1.1 = payer))).map (fun kv => kv.2)).sum

/-! ### C6: proposal ids -/

theorem post_proposal_spec (space : NegotiationSpace) (author : String) (d : ProposalData) :
    (space.post_proposal author d).2 = space.proposals.length ∧
    (space.post_proposal author d).1.proposals
      = space.proposals ++ [build_proposal space author d] ∧
    (build_proposal space author d).id = space.proposals.length ∧
    (space.post_proposal author d).1.evaluations = space.evaluations ∧
    (space.post_proposal author d).1.current_round = space.current_round := by
  refine ⟨rfl, rfl, rfl, rfl, rfl⟩

theorem post_fold_ids (calls : List (String × ProposalData)) (space : NegotiationSpace) :
    ((calls.foldl (fun sp c => (sp.post_proposal c.1 c.2).1) space).proposals.map Proposal.id)
      = space.proposals.map Proposal.id
        ++ List.range' space.proposals.length calls.length := by
  induction calls generalizing space with
  | nil => simp
  | cons c t ih =>
    simp only [List.foldl_cons]
    rw [ih]
    have h1 : ((space.post_proposal c.1 c.2).1).proposals
        = space.proposals ++ [build_proposal space c.1 c.2] := rfl
    have h2 : List.range' space.proposals.length (t.length + 1)
        = space.proposals.length :: List.range' (space.proposals.length + 1) t.length := rfl
    rw [h1]
    simp only [List.length_append, List.length_singleton, List.map_append, List.length_cons,
      List.map_cons, List.map_nil, h2]
    have h3 : (build_proposal space c.1 c.2).id = space.proposals.length := rfl
    rw [h3]
    simp

/-- Claim C6: every `post_proposal` call returns the pre-call length of the
proposal list, appends exactly one proposal whose id equals that value while
leaving earlier proposals (and the rest of the board) untouched; consequently
any sequence of calls starting from an empty board stores ids
`0, 1, 2, ...` in insertion order - strictly increasing, dense, no gaps. -/
theorem claim6_post_proposal_ids :
    (∀ (space : NegotiationSpace) (author : String) (d : ProposalData),
      (space.post_proposal author d).2 = space.proposals.length ∧
      (space.post_proposal author d).1.proposals
        = space.proposals ++ [build_proposal space author d] ∧
      (build_proposal space author d).id = space.proposals.length ∧
      (space.post_proposal author d).1.evaluations = space.evaluations ∧
      (space.post_proposal author d).1.current_round = space.current_round) ∧
    (∀ calls : List (String × ProposalData),
      ((calls.foldl (fun sp c => (sp.post_proposal c.1 c.2).1)
          ({} : NegotiationSpace)).proposals.map Proposal.id)
        = List.range calls.length) := by
  constructor
  · exact post_proposal_spec
  · intro calls
    rw [post_fold_ids calls {}]
    simp [List.range_eq_range']

/-! ### C7: evaluation upsert -/

/-- Claim C7: posting two evaluations with the same `(proposal_id,
agent_name)` key leaves the board in exactly the state obtained by posting
the second alone (last-write-wins), with the second evaluation the one
recorded for that key; and posting preserves the at-most-one-evaluation-per-
agent-per-proposal well-formedness of the evaluation map. -/
theorem claim7_evaluation_upsert :
    (∀ (space : NegotiationSpace) (e1 e2 : Evaluation),
      e1.proposal_id = e2.proposal_id → e1.agent_name = e2.agent_name →
        (space.post_evaluation e1).post_evaluation e2 = space.post_evaluation e2 ∧
        lookupEvaluation ((space.post_evaluation e1).post_evaluation e2)
          e2.proposal_id e2.agent_name = some e2) ∧
    (∀ (space : NegotiationSpace) (e : Evaluation),
      evalsWellFormed space → evalsWellFormed (space.post_evaluation e)) := by
  constructor
  · intro space e1 e2 hpid hname
    have hstate : (space.post_evaluation e1).post_evaluation e2 = space.post_evaluation e2 := by
      simp only [NegotiationSpace.post_evaluation, hpid, hname]
      congr 1
      rw [alookup_dictInsert_self]
      simp only [Option.getD_some]
      rw [dictInsert_dictInsert_same, dictInsert_dictInsert_same]
    refine ⟨hstate, ?_⟩
    rw [hstate]
    simp only [lookupEvaluation, NegotiationSpace.post_evaluation]
    rw [alookup_dictInsert_self]
    simp only [Option.getD_some]
    rw [alookup_dictInsert_self]
  · intro space e hwf
    obtain ⟨houter, hinner⟩ := hwf
    constructor
    · exact nodup_dictKeys_dictInsert _ _ _ houter
    · intro p hp
      rcases mem_dictInsert _ _ _ p hp with hmem | heq
      · exact hinner p hmem
      · subst heq
        cases hin : alookup space.evaluations e.proposal_id with
        | none => exact nodup_dictKeys_dictInsert _ _ _ (by simp)
        | some m =>
          exact nodup_dictKeys_dictInsert _ _ _
            (hinner _ (mem_of_alookup_eq_some _ _ _ hin))

/-! ### C3: side-payment budget validation -/

theorem alookup_dictAdd_self {α : Type} [DecidableEq α] (m : List (α × ℚ)) (k : α) (v : ℚ) :
    alookup (dictAdd m k v) k = some ((alookup m k).getD 0 + v) := by
  induction m with
  | nil => simp [dictAdd, alookup]
  | cons h t ih =>
    by_cases hk : h.1 = k
    · simp [dictAdd, hk, alookup]
    · simp [dictAdd, hk, alookup, ih]

theorem alookup_dictAdd_ne {α : Type} [DecidableEq α] (m : List (α × ℚ)) (k k' : α) (v : ℚ)
    (h : k ≠ k') : alookup (dictAdd m k v) k' = alookup m k' := by
  induction m with
  | nil => simp [dictAdd, alookup, h]
  | cons hd t ih =>
    by_cases hk : hd.1 = k
    · simp [dictAdd, hk, alookup, h]
    · simp [dictAdd, hk, alookup, ih]

theorem dictKeys_dictAdd_of_mem {α : Type} [DecidableEq α] (m : List (α × ℚ)) (k : α) (v : ℚ)
    (h : k ∈ dictKeys m) : dictKeys (dictAdd m k v) = dictKeys m := by
  induction m with
  | nil => simp at h
  | cons hd t ih =>
    by_cases hk : hd.1 = k
    · simp [dictAdd, hk]
    · have h' : k ∈ dictKeys t := by
        rcases List.mem_cons.1 (by simpa using h) with h1 | h1
        · exact absurd h1.symm hk
        · exact h1
      simp [dictAdd, hk, ih h']

theorem dictKeys_dictAdd_of_not_mem {α : Type} [DecidableEq α] (m : List (α × ℚ)) (k : α)
    (v : ℚ) (h : k ∉ dictKeys m) : dictKeys (dictAdd m k v) = dictKeys m ++ [k] := by
  induction m with
  | nil => simp [dictAdd]
  | cons hd t ih =>
    have hk : hd.1 ≠ k := by
      intro hc
      exact h (by simp [hc])
    have h' : k ∉ dictKeys t := by
      intro hc
      exact h (by simp [hc])
    simp [dictAdd, hk, ih h']

theorem nodup_dictKeys_dictAdd {α : Type} [DecidableEq α] (m : List (α × ℚ)) (k : α) (v : ℚ)
    (h : (dictKeys m).Nodup) : (dictKeys (dictAdd m k v)).Nodup := by
  by_cases hk : k ∈ dictKeys m
  · rwa [dictKeys_dictAdd_of_mem m k v hk]
  · rw [dictKeys_dictAdd_of_not_mem m k v hk]
    exact List.Nodup.append h (List.nodup_singleton k)
      (by intro a ha hb; simp at hb; subst hb; exact hk ha)

theorem alookup_eq_of_mem_nodupKeys {α β : Type} [DecidableEq α] (d : List (α × β))
    (hd : (dictKeys d).Nodup) (x : α × β) (hx : x ∈ d) : alookup d x.1 = some x.2 := by
  induction d with
  | nil => simp at hx
  | cons h t ih =>
    rcases List.mem_cons.1 hx with h1 | h1
    · subst h1
      simp [alookup]
    · have hk : h.1 ≠ x.1 := by
        intro hc
        have hx1 : x.1 ∈ dictKeys t := by
          simp only [dictKeys, List.mem_map]
          exact ⟨x, h1, rfl⟩
        have hd' : h.1 ∉ dictKeys t := by
          simp only [dictKeys_cons] at hd
          exact (List.nodup_cons.1 hd).1
        exact hd' (by rw [hc]; exact hx1)
      have ht : (dictKeys t).Nodup := by
        simp at hd
        exact hd.2
      simp [alookup, hk, ih ht h1]

/-- The outflow accumulation loop of `validate_side_payments` (lines 157-161):
final lookup value. -/
theorem outflow_fold_alookup (sp : List ((Option String × Option String) × ℚ))
    (m : List (Option String × ℚ)) (k : Option String) :
    alookup (sp.foldl (fun outflows kv => dictAdd outflows kv.1.1 kv.2) m) k
      = if ∃ kv ∈ sp, kv.1.1 = k then some ((alookup m k).getD 0 + payerTotal sp k)
        else alookup m k := by
  induction sp generalizing m with
  | nil => simp [payerTotal]
  | cons e t ih =>
    simp only [List.foldl_cons]
    rw [ih]
    by_cases he : e.1.1 = k
    · have hmem : ∃ kv ∈ e :: t, kv.1.1 = k := ⟨e, List.mem_cons_self _ _, he⟩
      rw [if_pos hmem]
      have htot : payerTotal (e :: t) k = e.2 + payerTotal t k := by
        simp [payerTotal, List.filter_cons, he]
      by_cases ht : ∃ kv ∈ t, kv.1.1 = k
      · rw [if_pos ht, htot]
        rw [he] at *
        rw [alookup_dictAdd_self]
        simp only [Option.getD_some]
        congr 1
        ring
      · rw [if_neg ht, htot]
        have htot0 : payerTotal t k = 0 := by
          have : t.filter (fun kv => decide (kv.1.1 = k)) = [] := by
            rw [List.filter_eq_nil_iff]
            intro a ha
            simp only [decide_eq_true_eq]
            intro hc
            exact ht ⟨a, ha, hc⟩
          simp [payerTotal, this]
        rw [he]
        rw [alookup_dictAdd_self]
        rw [htot0]
        congr 1
        ring
    · have htot : payerTotal (e :: t) k = payerTotal t k := by
        simp [payerTotal, List.filter_cons, he]
      have hiff : (∃ kv ∈ e :: t, kv.1.1 = k) ↔ ∃ kv ∈ t, kv.1.1 = k := by
        constructor
        · rintro ⟨kv, hkv, hk⟩
          rcases List.mem_cons.1 hkv with h1 | h1
          · subst h1; exact absurd hk he
          · exact ⟨kv, h1, hk⟩
        · rintro ⟨kv, hkv, hk⟩
          exact ⟨kv, List.mem_cons_of_mem _ hkv, hk⟩
      by_cases ht : ∃ kv ∈ t, kv.1.1 = k
      · rw [if_pos ht, if_pos (hiff.2 ht), htot]
        rw [alookup_dictAdd_ne _ _ _ _ he]
      · rw [if_neg ht, if_neg (fun hc => ht (hiff.1 hc))]
        exact alookup_dictAdd_ne _ _ _ _ he

theorem outflow_fold_nodupKeys (sp : List ((Option String × Option String) × ℚ))
    (m : List (Option String × ℚ)) (hm : (dictKeys m).Nodup) :
    (dictKeys (sp.foldl (fun outflows kv => dictAdd outflows kv.1.1 kv.2) m)).Nodup := by
  induction sp generalizing m with
  | nil => exact hm
  | cons e t ih =>
    simp only [List.foldl_cons]
    exact ih _ (nodup_dictKeys_dictAdd _ _ _ hm)

/-- The per-payer budget check of one entry of the outflow map
(lines 164-171). -/
def budgetCheck (agents_dict : List (String × DecentralizedAgent))
    (kv : Option String × ℚ) : Bool :=
  match kv.1 with
  | none => true
  | some agent_name =>
    match alookup agents_dict agent_name with
    | none => true
    | some agent => decide (kv.2 ≤ agent.max_side_payment_budget)

theorem budget_fold_fst (agents_dict : List (String × DecentralizedAgent))
    (outflows : List (Option String × ℚ)) (acc : Bool × List String) :
    (outflows.foldl
        (fun acc kv =>
          match kv.1 with
          | none => acc
          | some agent_name =>
            match alookup agents_dict agent_name with
            | none => acc
            | some agent =>
              if agent.max_side_payment_budget < kv.2 then
                (false, acc.2 ++ ["⚠ " ++ agent_name ++ " exceeds payment budget"])
              else
                (acc.1, acc.2 ++ ["✓ " ++ agent_name ++ " within budget"]))
        acc).1
      = (acc.1 && outflows.all (budgetCheck agents_dict)) := by
  induction outflows generalizing acc with
  | nil => simp
  | cons kv t ih =>
    rw [List.foldl_cons, ih]
    simp only [List.all_cons]
    cases hk : kv.1 with
    | none => simp [budgetCheck, hk]
    | some agent_name =>
      cases ha : alookup agents_dict agent_name with
      | none => simp [budgetCheck, hk, ha]
      | some agent =>
        by_cases hb : agent.max_side_payment_budget < kv.2
        · simp only [budgetCheck, hk, ha, if_pos hb]
          rw [decide_eq_false (not_le.2 hb)]
          simp
        · simp only [budgetCheck, hk, ha, if_neg hb]
          rw [decide_eq_true (not_lt.1 hb)]
          simp

/-- Claim C3: `validate_side_payments` returns `false` iff some payer that is
registered in the agent mapping has a total outgoing side-payment amount
strictly greater than its budget; in particular it returns `true` whenever
every registered payer's total is at or under budget (boundary included),
and a proposal with no side payments is always valid. -/
theorem claim3_validate_side_payments (space : NegotiationSpace) (proposal : Proposal)
    (agents_dict : List (String × DecentralizedAgent)) :
    ((space.validate_side_payments proposal agents_dict).1 = false ↔
      ∃ nm agent, alookup agents_dict nm = some agent ∧
        (∃ kv ∈ proposal.side_payments, kv.1.1 = some nm) ∧
        agent.max_side_payment_budget < payerTotal proposal.side_payments (some nm)) ∧
    ((∀ nm agent, alookup agents_dict nm = some agent →
        (∃ kv ∈ proposal.side_payments, kv.1.1 = some nm) →
        payerTotal proposal.side_payments (some nm) ≤ agent.max_side_payment_budget) →
      (space.validate_side_payments proposal agents_dict).1 = true) ∧
    (proposal.side_payments = [] →
      (space.validate_side_payments proposal agents_dict).1 = true) := by
  have main : (space.validate_side_payments proposal agents_dict).1 = false ↔
      ∃ nm agent, alookup agents_dict nm = some agent ∧
        (∃ kv ∈ proposal.side_payments, kv.1.1 = some nm) ∧
        agent.max_side_payment_budget < payerTotal proposal.side_payments (some nm) := by
    simp only [NegotiationSpace.validate_side_payments, validate_side_payments_list]
    by_cases hsp : proposal.side_payments = []
    · rw [if_pos hsp]
      simp only [hsp]
      constructor
      · intro h
        exact absurd h (by simp)
      · rintro ⟨nm, agent, -, ⟨kv, hkv, -⟩, -⟩
        simp at hkv
    · rw [if_neg hsp]
      simp only
      rw [budget_fold_fst]
      simp only [Bool.true_and]
      constructor
      · intro h
        have h' : ¬ ((proposal.side_payments.foldl
            (fun outflows kv => dictAdd outflows kv.1.1 kv.2) []).all
              (budgetCheck agents_dict) = true) := by
          rw [h]
          simp
        rw [List.all_eq_true] at h'
        push_neg at h'
        obtain ⟨kv, hkv, hfail⟩ := h'
        have hkdict := outflow_fold_alookup proposal.side_payments [] kv.1
        have hlook : alookup (proposal.side_payments.foldl
            (fun outflows kv => dictAdd outflows kv.1.1 kv.2) []) kv.1 = some kv.2 :=
          alookup_eq_of_mem_nodupKeys _ (outflow_fold_nodupKeys _ [] (by simp)) kv hkv
        rw [hlook] at hkdict
        by_cases hpay : ∃ e ∈ proposal.side_payments, e.1.1 = kv.1
        · rw [if_pos hpay] at hkdict
          simp only [alookup, Option.getD_none] at hkdict
          have hval : kv.2 = payerTotal proposal.side_payments kv.1 := by
            have := hkdict.symm
            simp only [Option.some.injEq] at this
            linarith [this]
          cases hk1 : kv.1 with
          | none => simp [budgetCheck, hk1] at hfail
          | some nm =>
            simp only [budgetCheck, hk1] at hfail
            cases ha : alookup agents_dict nm with
            | none => rw [ha] at hfail; simp at hfail
            | some agent =>
              rw [ha] at hfail
              simp only [decide_eq_true_eq] at hfail
              refine ⟨nm, agent, ha, ?_, ?_⟩
              · rw [← hk1]; exact hpay
              · rw [← hk1, ← hval]
                exact not_le.1 (fun hc => hfail (decide_eq_true hc))
        · rw [if_neg hpay] at hkdict
          simp [alookup] at hkdict
      · rintro ⟨nm, agent, ha, hpay, hover⟩
        have hkdict := outflow_fold_alookup proposal.side_payments [] (some nm)
        rw [if_pos hpay] at hkdict
        simp only [alookup, Option.getD_none] at hkdict
        have hmem := mem_of_alookup_eq_some _ _ _ hkdict
        have hnall : ¬ ((proposal.side_payments.foldl
            (fun outflows kv => dictAdd outflows kv.1.1 kv.2) []).all
              (budgetCheck agents_dict) = true) := by
          rw [List.all_eq_true]
          push_neg
          refine ⟨(some nm, 0 + payerTotal proposal.side_payments (some nm)), hmem, ?_⟩
          simp only [budgetCheck, ha]
          simp only [zero_add]
          exact fun hc => (not_le.2 hover) (of_decide_eq_true hc)
        cases hall : List.all ((proposal.side_payments.foldl
            (fun outflows kv => dictAdd outflows kv.1.1 kv.2) [])) (budgetCheck agents_dict) with
        | false => rfl
        | true => exact absurd hall hnall
  refine ⟨main, ?_, ?_⟩
  · intro hall
    cases hres : (space.validate_side_payments proposal agents_dict).1 with
    | true => rfl
    | false =>
      obtain ⟨nm, agent, ha, hpay, hover⟩ := main.1 hres
      exact absurd (hall nm agent ha hpay) (not_le.2 hover)
  · intro hsp
    simp [NegotiationSpace.validate_side_payments, validate_side_payments_list, hsp]

theorem claim3_validate_side_payments_witness :
    (NegotiationSpace.validate_side_payments {}
        { id := 0, author := "dev", round := 0, timestamp := 0, base_project := []
          modifications := [], compensation := []
          side_payments := [((some "a", some "b"), 100)] }
        [("a", { name := "a", role := "neighbor", max_side_payment_budget := 100 })]).1 = true ∧
    (NegotiationSpace.validate_side_payments {}
        { id := 0, author := "dev", round := 0, timestamp := 0, base_project := []
          modifications := [], compensation := [], side_payments := [] }
        [("a", { name := "a", role := "neighbor", max_side_payment_budget := 100 })]).1
      = true := by
  constructor
  · refine (claim3_validate_side_payments {} _ _).2.1 ?_
    intro nm agent ha hpay
    by_cases h : "a" = nm
    · subst h
      simp only [alookup, if_pos, Option.some.injEq] at ha
      subst ha
      simp [payerTotal]
    · simp [alookup, h] at ha
  · exact (claim3_validate_side_payments {} _ _).2.2 rfl

/-! ### C5: unanimity check -/

/-- The unanimity property exactly as the claim states it: every required
agent has a *recorded* evaluation with score at or above the threshold. -/
def unanimousSpecC5 (space : NegotiationSpace) (pid : ℕ) (required_agents : List String)
    (threshold : ℤ) : Prop :=
  ∀ a ∈ required_agents,
    ∃ e, lookupEvaluation space pid a = some e ∧ threshold ≤ e.satisfaction_score

/-- A board on which agent `b` alone evaluated proposal `0`. -/
def spaceC5 : NegotiationSpace :=
  { proposals := []
    evaluations :=
      [(0, [("b", { agent_name := "b", proposal_id := 0, satisfaction_score := 5
                    explanation := "", unsatisfied_preferences := [], suggested_changes := []
                    timestamp := 0 })])]
    current_round := 0 }

/-- Claim C5 as stated is false at threshold `0`: agent `a` has no recorded
evaluation for proposal `0`, yet `check_unanimous_acceptance` returns `true`
because the absent agent's default score `0` meets the threshold `0`. -/
theorem claim5_counterexample :
    NegotiationSpace.check_unanimous_acceptance spaceC5 0 ["a"] 0 = true ∧
      ¬ unanimousSpecC5 spaceC5 0 ["a"] 0 := by
  constructor
  · decide
  · intro h
    obtain ⟨e, he, -⟩ := h "a" (by simp)
    have hnone : lookupEvaluation spaceC5 0 "a" = none := rfl
    rw [hnone] at he
    exact Option.noConfusion he

theorem check_unanimous_iff (space : NegotiationSpace) (pid : ℕ) (req : List String)
    (threshold : ℤ) :
    space.check_unanimous_acceptance pid req threshold = true ↔
      (alookup space.evaluations pid).isSome ∧
        ∀ a ∈ req,
          threshold ≤ ((lookupEvaluation space pid a).map Evaluation.satisfaction_score).getD 0 := by
  unfold NegotiationSpace.check_unanimous_acceptance
  cases hin : alookup space.evaluations pid with
  | none =>
    simp [hin]
  | some evals =>
    simp only [Option.isSome_some, true_and, List.all_eq_true, decide_eq_true_eq,
      lookupEvaluation, hin, Option.getD_some]
    constructor
    · intro h a ha
      have hx := h a ha
      cases hae : alookup evals a with
      | none => rw [hae] at hx; simpa using hx
      | some e => rw [hae] at hx; simpa using hx
    · intro h a ha
      have hx := h a ha
      cases hae : alookup evals a with
      | none => rw [hae] at hx; simpa using hx
      | some e => rw [hae] at hx; simpa using hx

/-- Claim C5 amended: `check_unanimous_acceptance` returns true iff the
proposal has an entry in the evaluations map *and* every required agent's
effective score (its recorded score, or `0` when it never evaluated the
proposal) reaches the threshold.  At the default threshold `4` (indeed any
positive threshold) this coincides with the claim's reading: every required
agent has a recorded evaluation scoring at least the threshold - so an absent
agent makes the check fail.  The claim's biconditional fails only for
thresholds `≤ 0` (an absent agent then passes, see the counterexample) and for
the empty required list on a proposal with no evaluations entry (the code
returns false where the claim's reading is vacuously true). -/
theorem claim5_unanimity_amended (space : NegotiationSpace) (pid : ℕ) (req : List String)
    (threshold : ℤ) :
    (space.check_unanimous_acceptance pid req threshold = true ↔
      (alookup space.evaluations pid).isSome ∧
        ∀ a ∈ req,
          threshold ≤ ((lookupEvaluation space pid a).map Evaluation.satisfaction_score).getD 0) ∧
    (space.check_unanimous_acceptance pid req 4 = true ↔
      (alookup space.evaluations pid).isSome ∧
        ∀ a ∈ req, ∃ e, lookupEvaluation space pid a = some e ∧ 4 ≤ e.satisfaction_score) := by
  refine ⟨check_unanimous_iff space pid req threshold, ?_⟩
  rw [check_unanimous_iff space pid req 4]
  constructor
  · rintro ⟨hs, h⟩
    refine ⟨hs, fun a ha => ?_⟩
    have hx := h a ha
    cases hae : lookupEvaluation space pid a with
    | none => rw [hae] at hx; simp at hx
    | some e =>
      rw [hae] at hx
      exact ⟨e, rfl, by simpa using hx⟩
  · rintro ⟨hs, h⟩
    refine ⟨hs, fun a ha => ?_⟩
    obtain ⟨e, he, hscore⟩ := h a ha
    rw [he]
    simpa using hscore

theorem claim5_unanimity_amended_witness :
    NegotiationSpace.check_unanimous_acceptance spaceC5 0 ["b"] 4 = true := by
  refine (claim5_unanimity_amended spaceC5 0 ["b"] 4).2.2 ⟨by decide, ?_⟩
  intro a ha
  have ha' : a = "b" := by simpa using ha
  subst ha'
  exact ⟨{ agent_name := "b", proposal_id := 0, satisfaction_score := 5, explanation := ""
           unsatisfied_preferences := [], suggested_changes := [], timestamp := 0 },
         rfl, by decide⟩

/-! ### C8: repeated side-payment pairs -/

/-- The entries of a `post_proposal` input whose amount coerces, with their
coerced amounts, in order. -/
def coercedSidePayments (entries : List SidePaymentInfo) :
    List ((Option String × Option String) × ℚ) :=
  entries.filterMap
    (fun e => (pyFloat? (e.amount.getD (Value.num 0))).map
      (fun q => ((e.from_agent, e.to_agent), q)))

/-- The amount of the *last* entry carrying a given key, if any. -/
def lastValue? : List ((Option String × Option String) × ℚ) →
    (Option String × Option String) → Option ℚ
  | [], _ => none
  | kv :: t, k =>
    match lastValue? t k with
    | some v => some v
    | none => if kv.1 = k then some kv.2 else none

theorem dictInsert_fold_alookup (l : List ((Option String × Option String) × ℚ))
    (m : List ((Option String × Option String) × ℚ)) (k : Option String × Option String) :
    alookup (l.foldl (fun sp kv => dictInsert sp kv.1 kv.2) m) k
      = (lastValue? l k).elim (alookup m k) some := by
  induction l generalizing m with
  | nil => simp [lastValue?]
  | cons kv t ih =>
    simp only [List.foldl_cons]
    rw [ih]
    cases hl : lastValue? t k with
    | some v => simp [lastValue?, hl]
    | none =>
      by_cases hk : kv.1 = k
      · simp only [lastValue?, hl, if_pos hk, Option.elim]
        rw [← hk, alookup_dictInsert_self]
      · simp only [lastValue?, hl, if_neg hk, Option.elim]
        exact alookup_dictInsert_ne _ _ _ _ hk

theorem parseSidePayments_eq_fold_coerced (entries : List SidePaymentInfo)
    (m : List ((Option String × Option String) × ℚ)) :
    entries.foldl
        (fun side_payments payment_info =>
          match pyFloat? ((payment_info.amount).getD (Value.num 0)) with
          | some amount =>
            dictInsert side_payments (payment_info.from_agent, payment_info.to_agent) amount
          | none => side_payments)
        m
      = (coercedSidePayments entries).foldl (fun sp kv => dictInsert sp kv.1 kv.2) m := by
  induction entries generalizing m with
  | nil => simp [coercedSidePayments]
  | cons e t ih =>
    cases hc : pyFloat? ((e.amount).getD (Value.num 0)) with
    | none =>
      simp only [List.foldl_cons, hc]
      rw [ih]
      simp [coercedSidePayments, List.filterMap_cons, hc]
    | some q =>
      simp only [List.foldl_cons, hc]
      rw [ih]
      simp [coercedSidePayments, List.filterMap_cons, hc]

/-- A `post_proposal` input with two coercible entries for the ordered pair
`(a, b)`: amounts 100 then 50. -/
def dataC8 : ProposalData :=
  { side_payments := some
      [{ from_agent := some "a", to_agent := some "b", amount := some (Value.num 100) },
       { from_agent := some "a", to_agent := some "b", amount := some (Value.num 50) }] }

/-- Claim C8 as stated is false: with two entries for the ordered pair
`(a, b)` of amounts 100 and 50, the stored mapping holds 50 (the last entry),
not the sum 150. -/
theorem claim8_counterexample :
    alookup (build_proposal {} "dev" dataC8).side_payments (some "a", some "b") = some 50 ∧
      ¬ alookup (build_proposal {} "dev" dataC8).side_payments (some "a", some "b")
          = some (100 + 50) := by
  constructor
  · rfl
  · intro h
    have h50 : (50 : ℚ) = 100 + 50 := by
      have := h.symm.trans (rfl : alookup (build_proposal {} "dev" dataC8).side_payments
        (some "a", some "b") = some 50)
      exact (Option.some.injEq _ _ ▸ this).symm ▸ rfl
    norm_num at h50

/-- Claim C8 amended: for every ordered pair, the stored side-payment amount
is that of the *last* entry with that pair whose amount coerces to a number
(later entries overwrite earlier ones - no summing); entries whose amount
cannot be coerced are skipped without failing the whole post. -/
theorem claim8_amended :
    (∀ (entries : List SidePaymentInfo) (k : Option String × Option String),
      alookup (parseSidePayments entries) k = lastValue? (coercedSidePayments entries) k) ∧
    (∀ (es₁ es₂ : List SidePaymentInfo) (e : SidePaymentInfo),
      pyFloat? (e.amount.getD (Value.num 0)) = none →
        parseSidePayments (es₁ ++ e :: es₂) = parseSidePayments (es₁ ++ es₂)) := by
  constructor
  · intro entries k
    unfold parseSidePayments
    rw [parseSidePayments_eq_fold_coerced entries []]
    rw [dictInsert_fold_alookup]
    cases lastValue? (coercedSidePayments entries) k with
    | none => simp [alookup]
    | some v => simp
  · intro es₁ es₂ e hbad
    unfold parseSidePayments
    rw [List.foldl_append, List.foldl_append, List.foldl_cons, hbad]

theorem claim8_amended_witness :
    parseSidePayments
        [{ from_agent := some "a", to_agent := some "b", amount := some (Value.num 100) },
         { from_agent := some "a", to_agent := some "b", amount := some Value.null },
         { from_agent := some "a", to_agent := some "b", amount := some (Value.num 50) }]
      = parseSidePayments
        [{ from_agent := some "a", to_agent := some "b", amount := some (Value.num 100) },
         { from_agent := some "a", to_agent := some "b", amount := some (Value.num 50) }] :=
  claim8_amended.2
    [{ from_agent := some "a", to_agent := some "b", amount := some (Value.num 100) }]
    [{ from_agent := some "a", to_agent := some "b", amount := some (Value.num 50) }]
    { from_agent := some "a", to_agent := some "b", amount := some Value.null } rfl

/-! ### C9: parsed satisfaction scores -/

/-- An oracle response whose score field holds `7`: syntactically well-formed,
so `evaluate_proposal`'s parse succeeds - the code applies no range check. -/
def responseC9 : String :=
  "<satisfaction_score>7</satisfaction_score><explanation>ok</explanation>"

/-- The evaluation `evaluate_proposal` builds from `responseC9`. -/
def evalC9 : Evaluation :=
  { agent_name := "A", proposal_id := 0, satisfaction_score := 7, explanation := "ok"
    unsatisfied_preferences := [], suggested_changes := [], timestamp := 0 }

/-- Claim C9 as stated is false: the response `responseC9` parses
successfully into an `Evaluation` whose satisfaction score is `7`, outside
the claimed range `1..5`. -/
theorem claim9_counterexample :
    parse_evaluation_response responseC9 "A" 0 = some evalC9 ∧
      evalC9.satisfaction_score = 7 ∧
      ¬ (1 ≤ evalC9.satisfaction_score ∧ evalC9.satisfaction_score ≤ 5) := by
  refine ⟨by decide, rfl, by decide⟩

/-- Claim C9 amended: a successfully parsed evaluation's satisfaction score
is exactly the integer `int(...)` extracts from the `satisfaction_score` tag,
with no range restriction; in particular, whenever the oracle follows its
prompt and the tag holds one of `1`..`5`, the recorded score lies in `1..5`. -/
theorem claim9_amended (response agent_name : String) (pid : ℕ) (e : Evaluation)
    (hp : parse_evaluation_response response agent_name pid = some e) :
    (∃ s, parse_xml_tag response "satisfaction_score" = some s ∧
        pyIntOfString? s = some e.satisfaction_score) ∧
    (∀ s, parse_xml_tag response "satisfaction_score" = some s →
        s ∈ ["1", "2", "3", "4", "5"] →
        1 ≤ e.satisfaction_score ∧ e.satisfaction_score ≤ 5) := by
  unfold parse_evaluation_response at hp
  cases hs : parse_xml_tag response "satisfaction_score" with
  | none => simp only [hs] at hp; exact Option.noConfusion hp
  | some s =>
    simp only [hs] at hp
    cases hn : pyIntOfString? s with
    | none => simp only [hn] at hp; exact Option.noConfusion hp
    | some n =>
      simp only [hn] at hp
      cases he : parse_xml_tag response "explanation" with
      | none => simp only [he] at hp; exact Option.noConfusion hp
      | some expl =>
        simp only [he, Option.some.injEq] at hp
        have hscore : e.satisfaction_score = n := by rw [← hp]
        constructor
        · refine ⟨s, rfl, ?_⟩
          rw [hscore]
          exact hn
        · intro s' hs' hmem
          have hss : s = s' := Option.some.inj hs'
          subst hss
          rw [hscore]
          have hone : pyIntOfString? "1" = some 1 := by decide
          have htwo : pyIntOfString? "2" = some 2 := by decide
          have hthree : pyIntOfString? "3" = some 3 := by decide
          have hfour : pyIntOfString? "4" = some 4 := by decide
          have hfive : pyIntOfString? "5" = some 5 := by decide
          simp only [List.mem_cons, List.not_mem_nil, or_false] at hmem
          rcases hmem with h1 | h1 | h1 | h1 | h1 <;> subst h1
          · rw [hone] at hn
            have := Option.some.inj hn
            omega
          · rw [htwo] at hn
            have := Option.some.inj hn
            omega
          · rw [hthree] at hn
            have := Option.some.inj hn
            omega
          · rw [hfour] at hn
            have := Option.some.inj hn
            omega
          · rw [hfive] at hn
            have := Option.some.inj hn
            omega

/-- A well-formed response with score `4`, as parsed. -/
def evalW9 : Evaluation :=
  { agent_name := "A", proposal_id := 0, satisfaction_score := 4, explanation := "fine"
    unsatisfied_preferences := [], suggested_changes := [], timestamp := 0 }

theorem claim9_amended_witness :
    1 ≤ evalW9.satisfaction_score ∧ evalW9.satisfaction_score ≤ 5 :=
  (claim9_amended
      "<satisfaction_score>4</satisfaction_score><explanation>fine</explanation>" "A" 0 evalW9
      (by decide)).2 "4" (by decide) (by simp)

theorem claim7_evaluation_upsert_witness :
    ∃ sp2 : NegotiationSpace,
      (({} : NegotiationSpace).post_evaluation
          { agent_name := "a", proposal_id := 0, satisfaction_score := 2, explanation := "x"
            unsatisfied_preferences := [], suggested_changes := [], timestamp := 0 }).post_evaluation
        { agent_name := "a", proposal_id := 0, satisfaction_score := 5, explanation := "y"
          unsatisfied_preferences := [], suggested_changes := [], timestamp := 0 } = sp2 ∧
      lookupEvaluation sp2 0 "a"
        = some { agent_name := "a", proposal_id := 0, satisfaction_score := 5, explanation := "y"
                 unsatisfied_preferences := [], suggested_changes := [], timestamp := 0 } ∧
      evalsWellFormed sp2 := by
  refine ⟨_, rfl, ?_, ?_⟩
  · have h := (claim7_evaluation_upsert.1 ({} : NegotiationSpace)
      { agent_name := "a", proposal_id := 0, satisfaction_score := 2, explanation := "x"
        unsatisfied_preferences := [], suggested_changes := [], timestamp := 0 }
      { agent_name := "a", proposal_id := 0, satisfaction_score := 5, explanation := "y"
        unsatisfied_preferences := [], suggested_changes := [], timestamp := 0 } rfl rfl).2
    exact h
  · exact claim7_evaluation_upsert.2
      (({} : NegotiationSpace).post_evaluation
        { agent_name := "a", proposal_id := 0, satisfaction_score := 2, explanation := "x"
          unsatisfied_preferences := [], suggested_changes := [], timestamp := 0 })
      { agent_name := "a", proposal_id := 0, satisfaction_score := 5, explanation := "y"
        unsatisfied_preferences := [], suggested_changes := [], timestamp := 0 }
      (claim7_evaluation_upsert.2 ({} : NegotiationSpace)
        { agent_name := "a", proposal_id := 0, satisfaction_score := 2, explanation := "x"
          unsatisfied_preferences := [], suggested_changes := [], timestamp := 0 }
        ⟨by simp, by simp⟩)

/-! ### C1: driver return values per terminal path -/

theorem run_rounds_eq_F (o : Oracle) (developer : DecentralizedAgent)
    (neighbors : List DecentralizedAgent) (rounds_left : ℕ) :
    ∀ (space : NegotiationSpace) (current_proposal : Proposal) (prev_avg : ℚ),
      run_rounds o developer neighbors space current_proposal prev_avg rounds_left
        = ((run_roundsF o developer neighbors space current_proposal prev_avg rounds_left).1,
           (run_roundsF o developer neighbors space current_proposal prev_avg rounds_left).2.1,
           Final.result
             (run_roundsF o developer neighbors space current_proposal prev_avg
               rounds_left).2.2) := by
  induction rounds_left with
  | zero => intro space cur prev; rfl
  | succ k ih =>
    intro space cur prev
    simp only [run_rounds, run_roundsF]
    repeat' split
    all_goals try rfl
    all_goals simp only [ih]

/-- Claim C1: the driver's return value is `None` exactly on the abort paths
(regression, budget violation, round exhaustion), the current terminal
proposal exactly on the success paths (unanimity, Pareto stop), and an
unrecovered oracle error (transport anywhere; parse in evaluation or
synthesis - a parse failure of the continuation judgment is recovered to
*continue* by design) propagates out as an exception, never converted into a
`None` result. -/
theorem claim1_driver_outcomes :
    (∀ (o : Oracle) (developer : DecentralizedAgent) (neighbors : List DecentralizedAgent)
        (space : NegotiationSpace) (max_rounds : ℕ),
      run_negotiation o developer neighbors space max_rounds
        = ((run_negotiationF o developer neighbors space max_rounds).1,
           (run_negotiationF o developer neighbors space max_rounds).2.1,
           Final.result (run_negotiationF o developer neighbors space max_rounds).2.2)) ∧
    (∀ f : Final,
      (Final.result f = Except.ok none ↔
        f = .abortedRegression ∨ f = .abortedBudget ∨ f = .exhausted) ∧
      (∀ p : Proposal, Final.result f = Except.ok (some p) ↔
        f = .success p ∨ f = .paretoStop p) ∧
      (∀ e : String, Final.result f = Except.error e ↔ f = .raised e)) := by
  constructor
  · intro o developer neighbors space max_rounds
    unfold run_negotiation run_negotiationF
    dsimp only
    cases ((space.post_proposal developer.name
        (initial_proposal_data neighbors)).1).get_latest_proposal with
    | none => rfl
    | some current_proposal => exact run_rounds_eq_F o developer neighbors max_rounds _ _ _
  · intro f
    cases f <;> refine ⟨by simp [Final.result], fun p => ?_, fun e => ?_⟩ <;>
      simp [Final.result]

/-! ### Helper lemmas about one round's evaluation fan-out -/

/-- The outcome of one agent's evaluation call, which does not depend on the
board state. -/
def evalCallResult (o : Oracle) (round : ℕ) (current_proposal : Proposal)
    (a : DecentralizedAgent) : CallResult Evaluation :=
  match o.evalResult round a.name with
  | .fail e => .fail e
  | .ok d => .ok (mkEvaluation a.name current_proposal.id d)

theorem evaluate_proposal_snd (o : Oracle) (a : DecentralizedAgent) (round : ℕ)
    (cur : Proposal) (space : NegotiationSpace) :
    (evaluate_proposal o a round cur space).2 = evalCallResult o round cur a := by
  unfold evaluate_proposal evalCallResult
  cases o.evalResult round a.name <;> rfl

theorem evalFold_spec (o : Oracle) (round : ℕ) (cur : Proposal) :
    ∀ (agents : List DecentralizedAgent) (space : NegotiationSpace)
      (acc : List (CallResult Evaluation)),
      agents.foldl
          (fun acc agent =>
            let r := evaluate_proposal o agent round cur acc.1
            (r.1, acc.2 ++ [r.2]))
          (space, acc)
        = (agents.foldl (fun sp a => (evaluate_proposal o a round cur sp).1) space,
           acc ++ agents.map (evalCallResult o round cur)) := by
  intro agents
  induction agents with
  | nil => intro space acc; simp
  | cons a t ih =>
    intro space acc
    simp only [List.foldl_cons, List.map_cons]
    rw [ih]
    rw [evaluate_proposal_snd]
    simp

/-- The posted-evaluations state and the collected results of one round. -/
theorem run_round_evaluations_spec (o : Oracle) (developer : DecentralizedAgent)
    (neighbors : List DecentralizedAgent) (round : ℕ) (cur : Proposal)
    (space : NegotiationSpace) :
    run_round_evaluations o developer neighbors round cur space
      = ((neighbors ++ [developer]).foldl
            (fun sp a => (evaluate_proposal o a round cur sp).1) space,
         (neighbors ++ [developer]).map (evalCallResult o round cur)) := by
  unfold run_round_evaluations
  rw [evalFold_spec]
  simp

/-- All of a round's evaluation calls succeed. -/
def evalsOk (o : Oracle) (developer : DecentralizedAgent)
    (neighbors : List DecentralizedAgent) (round : ℕ) : Prop :=
  ∀ a ∈ neighbors ++ [developer], ∃ d, o.evalResult round a.name = CallResult.ok d

/-- The score the oracle reports for an agent in a round (`0` for a failed
call; only read under `evalsOk`). -/
def oracleScore (o : Oracle) (round : ℕ) (name : String) : ℤ :=
  match o.evalResult round name with
  | .ok d => d.satisfaction_score
  | .fail _ => 0

/-- The scores of one round, neighbors then developer (`all_scores`,
line 1261). -/
def roundScores (o : Oracle) (developer : DecentralizedAgent)
    (neighbors : List DecentralizedAgent) (round : ℕ) : List ℤ :=
  (neighbors ++ [developer]).map (fun a => oracleScore o round a.name)

/-- `avg_score` of one round, as determined by the oracle. -/
def avgAt (o : Oracle) (developer : DecentralizedAgent)
    (neighbors : List DecentralizedAgent) (round : ℕ) : ℚ :=
  avgScores (roundScores o developer neighbors round)

theorem firstFailure_none_of_ok (o : Oracle) (developer : DecentralizedAgent)
    (neighbors : List DecentralizedAgent) (round : ℕ) (cur : Proposal)
    (hok : evalsOk o developer neighbors round) :
    firstFailure ((neighbors ++ [developer]).map (evalCallResult o round cur)) = none := by
  unfold firstFailure
  rw [List.findSome?_map]
  rw [List.findSome?_eq_none_iff]
  intro a ha
  obtain ⟨d, hd⟩ := hok a ha
  simp [Function.comp, evalCallResult, hd]

theorem scoresOf_of_ok (o : Oracle) (developer : DecentralizedAgent)
    (neighbors : List DecentralizedAgent) (round : ℕ) (cur : Proposal)
    (hok : evalsOk o developer neighbors round) :
    scoresOf ((neighbors ++ [developer]).map (evalCallResult o round cur))
      = roundScores o developer neighbors round := by
  unfold scoresOf roundScores
  rw [List.filterMap_map]
  have key : ∀ l : List DecentralizedAgent,
      (∀ a ∈ l, ∃ d, o.evalResult round a.name = CallResult.ok d) →
      List.filterMap
          ((fun r => match r with
            | CallResult.ok ev => some ev.satisfaction_score
            | CallResult.fail _ => none) ∘ evalCallResult o round cur) l
        = l.map (fun a => oracleScore o round a.name) := by
    intro l
    induction l with
    | nil => intro _; simp
    | cons a t ih =>
      intro hl
      obtain ⟨d, hd⟩ := hl a (by simp)
      have ht := ih (fun x hx => hl x (List.mem_cons_of_mem _ hx))
      simp only [List.filterMap_cons, List.map_cons, Function.comp, evalCallResult, hd,
        mkEvaluation]
      rw [ht]
      congr 1
      simp [oracleScore, hd]
  exact key _ hok

/-! ### C2: regression abort -/

/-- Claim C2: from round 2 on, when the previous round's average satisfaction
exceeds the current round's by more than `0.2`, the driver stops right after
the evaluation barrier with result `None` - the trace of the remaining run is
exactly one evaluation event, so synthesis is never invoked again; in round 1
(`space.current_round = 0` at loop entry) the regression check is not applied
and the loop can never stop with the regression terminal. -/
theorem claim2_regression_abort :
    (∀ (o : Oracle) (developer : DecentralizedAgent) (neighbors : List DecentralizedAgent)
        (space : NegotiationSpace) (current_proposal : Proposal) (prev_avg : ℚ) (k : ℕ),
      1 ≤ space.current_round →
      evalsOk o developer neighbors (space.current_round + 1) →
      1/5 < prev_avg - avgAt o developer neighbors (space.current_round + 1) →
      (run_rounds o developer neighbors space current_proposal prev_avg (k + 1)).1
          = [Event.evalRound (space.current_round + 1)] ∧
        (run_rounds o developer neighbors space current_proposal prev_avg (k + 1)).2.2
          = Except.ok none) ∧
    (∀ (o : Oracle) (developer : DecentralizedAgent) (neighbors : List DecentralizedAgent)
        (space : NegotiationSpace) (current_proposal : Proposal) (prev_avg : ℚ),
      space.current_round = 0 →
      (run_roundsF o developer neighbors space current_proposal prev_avg 1).2.2
        ≠ Final.abortedRegression) := by
  constructor
  · intro o developer neighbors space cur prev_avg k h1 hok hdrop
    have hr : (space.advance_round).current_round = space.current_round + 1 := rfl
    simp only [run_rounds, hr, run_round_evaluations_spec]
    rw [firstFailure_none_of_ok o developer neighbors _ cur hok]
    simp only
    rw [scoresOf_of_ok o developer neighbors _ cur hok]
    rw [if_pos ⟨by omega, hdrop⟩]
    exact ⟨rfl, rfl⟩
  · intro o developer neighbors space cur prev_avg h0
    have hr : (space.advance_round).current_round = 1 := by
      simp [NegotiationSpace.advance_round, h0]
    simp only [run_roundsF, hr]
    repeat' split
    all_goals simp_all [run_roundsF]

/-- A stub oracle: every evaluation reports score 3, continuation says
continue, synthesis yields an empty dict. -/
def oracleW2 : Oracle :=
  { evalResult := fun _ _ => .ok { satisfaction_score := 3 }
    continueResult := fun _ => .ok true
    synthesisResult := fun _ => .ok {} }

/-- Developer stub. -/
def devW : DecentralizedAgent := { name := "D", role := "developer" }

/-- Stakeholder stub. -/
def nbrW : DecentralizedAgent := { name := "N", role := "neighbor" }

/-- Proposal stub. -/
def propW2 : Proposal :=
  { id := 0, author := "D", round := 0, timestamp := 0, base_project := []
    modifications := [], compensation := [] }

theorem claim2_regression_abort_witness :
    (run_rounds oracleW2 devW [nbrW] { current_round := 1 } propW2 4 1).1
        = [Event.evalRound 2] ∧
      (run_rounds oracleW2 devW [nbrW] { current_round := 1 } propW2 4 1).2.2
        = Except.ok none :=
  claim2_regression_abort.1 oracleW2 devW [nbrW] { current_round := 1 } propW2 4 0
    (le_refl 1)
    (fun _ _ => ⟨{ satisfaction_score := 3 }, rfl⟩)
    (by
      have havg : avgAt oracleW2 devW [nbrW] 2 = 3 := by
        simp [avgAt, roundScores, avgScores, oracleScore, oracleW2, devW, nbrW]
      rw [havg]
      norm_num)

/-! ### C10: budget abort leaves the rejected proposal on the board -/

theorem get_latest_post_proposal (space : NegotiationSpace) (author : String)
    (d : ProposalData) :
    ((space.post_proposal author d).1).get_latest_proposal
      = some (build_proposal space author d) := by
  simp [NegotiationSpace.post_proposal, NegotiationSpace.get_latest_proposal]

/-- Claim C10: when the synthesized proposal fails side-payment validation,
the driver returns `None`, but the over-budget proposal has already been
appended to the board (by `post_proposal`, before validation) and is not
removed: the aborted run's final board state is `spaceE` (the state after the
round's evaluations) with the rejected proposal appended, the board's latest
proposal *is* the rejected over-budget one, and it still fails validation -
no rollback happens on abort. -/
theorem claim10_budget_abort_keeps_posted
    (o : Oracle) (developer : DecentralizedAgent) (neighbors : List DecentralizedAgent)
    (space : NegotiationSpace) (cur : Proposal) (prev_avg : ℚ) (k : ℕ) (d : ProposalData) :
    ∀ (r : ℕ) (spaceE : NegotiationSpace) (newest : Proposal),
      r = space.current_round + 1 →
      spaceE = (run_round_evaluations o developer neighbors r cur space.advance_round).1 →
      newest = build_proposal spaceE developer.name d →
      evalsOk o developer neighbors r →
      prev_avg - avgAt o developer neighbors r ≤ 1/5 →
      (roundScores o developer neighbors r).all (fun s => decide ((4 : ℤ) ≤ s)) = false →
      should_continue_negotiation o r cur spaceE = CallResult.ok true →
      o.synthesisResult r = CallResult.ok d →
      (validate_side_payments_list newest.side_payments (mkAgentsDict developer neighbors)).1
        = false →
      run_rounds o developer neighbors space cur prev_avg (k + 1)
          = ([Event.evalRound r, Event.synthesis r], (spaceE.post_proposal developer.name d).1,
             Except.ok none) ∧
        ((spaceE.post_proposal developer.name d).1).get_latest_proposal = some newest ∧
        ((spaceE.post_proposal developer.name d).1).proposals
          = spaceE.proposals ++ [newest] ∧
        (((spaceE.post_proposal developer.name d).1).validate_side_payments newest
            (mkAgentsDict developer neighbors)).1 = false := by
  intro r spaceE newest hre hspE hnew hok hnreg hnotall hcont hsynth hbad
  subst hre
  subst hspE
  subst hnew
  have hr : (space.advance_round).current_round = space.current_round + 1 := rfl
  have hFF : firstFailure (run_round_evaluations o developer neighbors
      (space.current_round + 1) cur space.advance_round).2 = none := by
    rw [run_round_evaluations_spec]
    exact firstFailure_none_of_ok o developer neighbors _ cur hok
  have hSC : scoresOf (run_round_evaluations o developer neighbors
      (space.current_round + 1) cur space.advance_round).2
      = roundScores o developer neighbors (space.current_round + 1) := by
    rw [run_round_evaluations_spec]
    exact scoresOf_of_ok o developer neighbors _ cur hok
  have hne : (build_proposal (run_round_evaluations o developer neighbors
      (space.current_round + 1) cur space.advance_round).1
        developer.name d).side_payments ≠ [] := by
    intro hnil
    rw [hnil] at hbad
    simp [validate_side_payments_list] at hbad
  refine ⟨?_, ?_, ?_, ?_⟩
  · simp only [run_rounds, hr, hFF]
    rw [hSC]
    rw [if_neg (fun hc => absurd hc.2 (not_lt.2 hnreg))]
    rw [if_neg (by simp [hnotall])]
    simp only [hcont, hsynth]
    rw [get_latest_post_proposal]
    dsimp only
    rw [if_pos ⟨hne, by
      simp only [NegotiationSpace.validate_side_payments]
      exact hbad⟩]
  · rw [get_latest_post_proposal]
  · rfl
  · simp only [NegotiationSpace.validate_side_payments]
    exact hbad

/-- The over-budget proposal data the stub synthesis oracle emits: stakeholder
`N` (payment budget `0`) paying `100` to `D`. -/
def dataW10 : ProposalData :=
  { side_payments := some
      [{ from_agent := some "N", to_agent := some "D", amount := some (Value.num 100) }] }

/-- A stub oracle whose synthesis proposes the over-budget side payment. -/
def oracleW10 : Oracle :=
  { evalResult := fun _ _ => .ok { satisfaction_score := 3 }
    continueResult := fun _ => .ok true
    synthesisResult := fun _ => .ok dataW10 }

theorem claim10_budget_abort_keeps_posted_witness :
    (run_rounds oracleW10 devW [nbrW] ({} : NegotiationSpace) propW2 0 1).2.2
        = Except.ok none ∧
      ((run_rounds oracleW10 devW [nbrW] ({} : NegotiationSpace) propW2 0 1).2.1).get_latest_proposal
        = some (build_proposal
            (run_round_evaluations oracleW10 devW [nbrW] 1 propW2
              (NegotiationSpace.advance_round {})).1 "D" dataW10) := by
  have h := claim10_budget_abort_keeps_posted oracleW10 devW [nbrW] ({} : NegotiationSpace)
    propW2 0 0 dataW10 1
    (run_round_evaluations oracleW10 devW [nbrW] 1 propW2
      (NegotiationSpace.advance_round {})).1
    (build_proposal
      (run_round_evaluations oracleW10 devW [nbrW] 1 propW2
        (NegotiationSpace.advance_round {})).1 "D" dataW10)
    rfl rfl rfl
    (fun _ _ => ⟨{ satisfaction_score := 3 }, rfl⟩)
    (by
      have havg : avgAt oracleW10 devW [nbrW] 1 = 3 := by
        simp [avgAt, roundScores, avgScores, oracleScore, oracleW10, devW, nbrW]
      rw [havg]
      norm_num)
    (by decide)
    (by decide)
    rfl
    (by decide)
  rw [h.1]
  exact ⟨rfl, h.2.1⟩

/-! ### C4: round exhaustion - helper lemmas -/

theorem dictInsert_eq_append_of_not_mem {α β : Type} [DecidableEq α] (m : List (α × β)) (k : α)
    (v : β) (h : k ∉ dictKeys m) : dictInsert m k v = m ++ [(k, v)] := by
  induction m with
  | nil => simp [dictInsert]
  | cons hd t ih =>
    have hk : hd.1 ≠ k := by
      intro hc
      exact h (by simp [hc])
    have h' : k ∉ dictKeys t := by
      intro hc
      exact h (by simp [hc])
    simp [dictInsert, hk, ih h']

/-- How `get_feedback_for_proposal` reads the evaluation map, uniformly over
a missing entry. -/
theorem feedback_eq_getD (space : NegotiationSpace) (pid : ℕ) :
    space.get_feedback_for_proposal pid
      = ((alookup space.evaluations pid).getD []).map (fun p =>
          { agent := p.2.agent_name
            score := p.2.satisfaction_score
            satisfied := decide ((4 : ℤ) ≤ p.2.satisfaction_score)
            unsatisfied := p.2.unsatisfied_preferences
            suggested := p.2.suggested_changes
            willing_to_accept := p.2.willing_to_accept_payment
            willing_to_pay := p.2.willing_to_pay
            willingness_estimate := p.2.willingness_to_pay_estimate }) := by
  unfold NegotiationSpace.get_feedback_for_proposal
  cases alookup space.evaluations pid with
  | none => rfl
  | some evals => rfl

/-- The evaluation fan-out touches only the evaluation map. -/
theorem evalfold_proposals_round (o : Oracle) (round : ℕ) (cur : Proposal) :
    ∀ (agents : List DecentralizedAgent) (space : NegotiationSpace),
      (agents.foldl (fun sp a => (evaluate_proposal o a round cur sp).1) space).proposals
          = space.proposals ∧
        (agents.foldl (fun sp a => (evaluate_proposal o a round cur sp).1) space).current_round
          = space.current_round := by
  intro agents
  induction agents with
  | nil => intro space; exact ⟨rfl, rfl⟩
  | cons a t ih =>
    intro space
    simp only [List.foldl_cons]
    have hstep : ((evaluate_proposal o a round cur space).1).proposals = space.proposals ∧
        ((evaluate_proposal o a round cur space).1).current_round = space.current_round := by
      unfold evaluate_proposal
      cases o.evalResult round a.name with
      | fail e => exact ⟨rfl, rfl⟩
      | ok d => exact ⟨rfl, rfl⟩
    obtain ⟨h1, h2⟩ := ih ((evaluate_proposal o a round cur space).1)
    exact ⟨h1.trans hstep.1, h2.trans hstep.2⟩

/-- Every key of the evaluation map after the fan-out was already a key or is
the evaluated proposal's id. -/
theorem evalfold_mem_keys (o : Oracle) (round : ℕ) (cur : Proposal) :
    ∀ (agents : List DecentralizedAgent) (space : NegotiationSpace),
      ∀ p ∈ (agents.foldl (fun sp a => (evaluate_proposal o a round cur sp).1)
          space).evaluations,
        p.1 ∈ dictKeys space.evaluations ∨ p.1 = cur.id := by
  intro agents
  induction agents with
  | nil => intro space p hp; exact Or.inl (by simp [dictKeys]; exact ⟨p.2, hp⟩)
  | cons a t ih =>
    intro space p hp
    simp only [List.foldl_cons] at hp
    rcases ih _ p hp with hmem | hid
    · unfold evaluate_proposal at hmem
      cases hr : o.evalResult round a.name with
      | fail e =>
        rw [hr] at hmem
        exact Or.inl hmem
      | ok d =>
        rw [hr] at hmem
        simp only [NegotiationSpace.post_evaluation, mkEvaluation] at hmem
        simp only [dictKeys, List.mem_map] at hmem
        obtain ⟨q, hq, hq1⟩ := hmem
        rcases mem_dictInsert _ _ _ q hq with h1 | h1
        · exact Or.inl (by simp [dictKeys]; exact ⟨q.2, by rw [← hq1]; exact h1⟩)
        · right
          rw [← hq1, h1]
    · exact Or.inr hid

/-- The parsed fields of an agent's evaluation call, under `evalsOk`. -/
def oracleEvalData (o : Oracle) (round : ℕ) (name : String) : EvalData :=
  match o.evalResult round name with
  | .ok d => d
  | .fail _ => { satisfaction_score := 0 }

/-- The inner evaluation dictionary accumulated by the fan-out: one entry per
agent, in submission order, when the proposal was not evaluated before. -/
theorem evalfold_inner (o : Oracle) (round : ℕ) (cur : Proposal) :
    ∀ (agents : List DecentralizedAgent) (space : NegotiationSpace)
      (m : List (String × Evaluation)),
      (alookup space.evaluations cur.id).getD [] = m →
      (∀ a ∈ agents, a.name ∉ dictKeys m) →
      (agents.map DecentralizedAgent.name).Nodup →
      (∀ a ∈ agents, ∃ d, o.evalResult round a.name = CallResult.ok d) →
      (alookup ((agents.foldl (fun sp a => (evaluate_proposal o a round cur sp).1)
          space).evaluations) cur.id).getD []
        = m ++ agents.map (fun a =>
            (a.name, mkEvaluation a.name cur.id (oracleEvalData o round a.name))) := by
  intro agents
  induction agents with
  | nil => intro space m hm _ _ _; simpa using hm
  | cons a t ih =>
    intro space m hm hnotin hnodup hok
    obtain ⟨d, hd⟩ := hok a (by simp)
    have hdata : oracleEvalData o round a.name = d := by
      unfold oracleEvalData
      rw [hd]
    simp only [List.foldl_cons]
    have hstep : (evaluate_proposal o a round cur space).1
        = space.post_evaluation (mkEvaluation a.name cur.id d) := by
      unfold evaluate_proposal
      rw [hd]
    rw [hstep]
    have hinner : (alookup (space.post_evaluation
        (mkEvaluation a.name cur.id d)).evaluations cur.id).getD []
        = m ++ [(a.name, mkEvaluation a.name cur.id d)] := by
      simp only [NegotiationSpace.post_evaluation, mkEvaluation]
      rw [alookup_dictInsert_self]
      simp only [Option.getD_some]
      rw [hm]
      exact dictInsert_eq_append_of_not_mem m a.name _ (hnotin a (by simp))
    have hnotin' : ∀ b ∈ t, b.name ∉ dictKeys (m ++ [(a.name, mkEvaluation a.name cur.id d)]) := by
      intro b hb hc
      simp only [dictKeys, List.map_append, List.mem_append, List.map_cons, List.map_nil,
        List.mem_singleton] at hc
      rcases hc with hc | hc
      · exact hnotin b (List.mem_cons_of_mem _ hb) hc
      · simp only [List.map_cons, List.nodup_cons] at hnodup
        exact hnodup.1 (by simp only [List.mem_map]; exact ⟨b, hb, hc⟩)
    have hnodup' : (t.map DecentralizedAgent.name).Nodup := by
      simp only [List.map_cons, List.nodup_cons] at hnodup
      exact hnodup.2
    have hok' : ∀ b ∈ t, ∃ d, o.evalResult round b.name = CallResult.ok d :=
      fun b hb => hok b (List.mem_cons_of_mem _ hb)
    rw [ih _ _ hinner hnotin' hnodup' hok']
    simp [hdata]

/-- After a round's fan-out on a freshly posted proposal (`cur.id` not yet in
the evaluation map), with distinct agent names, all calls succeeding, not all
scores satisfied and the continuation oracle answering *continue* (or failing
to parse, which recovers to *continue*), `should_continue_negotiation`
returns `ok true`. -/
theorem should_continue_ok (o : Oracle) (developer : DecentralizedAgent)
    (neighbors : List DecentralizedAgent) (round : ℕ) (cur : Proposal)
    (space : NegotiationSpace)
    (hnodup : ((neighbors ++ [developer]).map DecentralizedAgent.name).Nodup)
    (ha : alookup space.evaluations cur.id = none)
    (hok : evalsOk o developer neighbors round)
    (hnotall : ((roundScores o developer neighbors round).all
        (fun s => decide ((4 : ℤ) ≤ s))) = false)
    (hcont : o.continueResult round = ContinueOutcome.ok true ∨
      o.continueResult round = ContinueOutcome.parseFailure) :
    should_continue_negotiation o round cur
        (run_round_evaluations o developer neighbors round cur space).1
      = CallResult.ok true := by
  have hfold : (run_round_evaluations o developer neighbors round cur space).1
      = (neighbors ++ [developer]).foldl
          (fun sp a => (evaluate_proposal o a round cur sp).1) space := by
    rw [run_round_evaluations_spec]
  have hm0 : (alookup space.evaluations cur.id).getD [] = ([] : List (String × Evaluation)) := by
    rw [ha]; rfl
  have hinner := evalfold_inner o round cur (neighbors ++ [developer]) space [] hm0
    (by intro a _ hc; simp at hc) hnodup hok
  have hfb : ((run_round_evaluations o developer neighbors round cur space).1).get_feedback_for_proposal
      cur.id
      = ((neighbors ++ [developer]).map (fun a =>
          (a.name, mkEvaluation a.name cur.id (oracleEvalData o round a.name)))).map (fun p =>
          { agent := p.2.agent_name
            score := p.2.satisfaction_score
            satisfied := decide ((4 : ℤ) ≤ p.2.satisfaction_score)
            unsatisfied := p.2.unsatisfied_preferences
            suggested := p.2.suggested_changes
            willing_to_accept := p.2.willing_to_accept_payment
            willing_to_pay := p.2.willing_to_pay
            willingness_estimate := p.2.willingness_to_pay_estimate }) := by
    rw [feedback_eq_getD, hfold, hinner]
    simp
  unfold should_continue_negotiation
  rw [hfb]
  have hONE : ∃ a ∈ neighbors ++ [developer], oracleScore o round a.name < 4 := by
    by_contra hc
    push_neg at hc
    have : ((roundScores o developer neighbors round).all
        (fun s => decide ((4 : ℤ) ≤ s))) = true := by
      rw [List.all_eq_true]
      intro s hs
      simp only [roundScores, List.mem_map] at hs
      obtain ⟨a, ha', rfl⟩ := hs
      simpa using hc a ha'
    rw [this] at hnotall
    exact Bool.noConfusion hnotall
  obtain ⟨aBad, haBad, hscoreBad⟩ := hONE
  have hne : ((neighbors ++ [developer]).map (fun a =>
      (a.name, mkEvaluation a.name cur.id (oracleEvalData o round a.name)))).map (fun p =>
        ({ agent := p.2.agent_name
           score := p.2.satisfaction_score
           satisfied := decide ((4 : ℤ) ≤ p.2.satisfaction_score)
           unsatisfied := p.2.unsatisfied_preferences
           suggested := p.2.suggested_changes
           willing_to_accept := p.2.willing_to_accept_payment
           willing_to_pay := p.2.willing_to_pay
           willingness_estimate := p.2.willingness_to_pay_estimate } : Feedback)) ≠ [] := by
    simp only [ne_eq, List.map_eq_nil_iff, List.append_eq_nil]
    intro hc
    exact List.cons_ne_nil _ _ hc.2
  rw [if_neg hne]
  have hscoreEq : ∀ a : DecentralizedAgent,
      (mkEvaluation a.name cur.id (oracleEvalData o round a.name)).satisfaction_score
        = oracleScore o round a.name := by
    intro a
    unfold mkEvaluation oracleEvalData oracleScore
    cases o.evalResult round a.name <;> rfl
  have hunsat : ((((neighbors ++ [developer]).map (fun a =>
      (a.name, mkEvaluation a.name cur.id (oracleEvalData o round a.name)))).map (fun p =>
        ({ agent := p.2.agent_name
           score := p.2.satisfaction_score
           satisfied := decide ((4 : ℤ) ≤ p.2.satisfaction_score)
           unsatisfied := p.2.unsatisfied_preferences
           suggested := p.2.suggested_changes
           willing_to_accept := p.2.willing_to_accept_payment
           willing_to_pay := p.2.willing_to_pay
           willingness_estimate := p.2.willingness_to_pay_estimate } : Feedback))).filter
        (fun fb => decide (fb.score < 4))) ≠ [] := by
    apply List.ne_nil_of_mem (a :=
      { agent := aBad.name
        score := (mkEvaluation aBad.name cur.id (oracleEvalData o round aBad.name)).satisfaction_score
        satisfied := decide ((4 : ℤ) ≤
          (mkEvaluation aBad.name cur.id (oracleEvalData o round aBad.name)).satisfaction_score)
        unsatisfied := (mkEvaluation aBad.name cur.id
          (oracleEvalData o round aBad.name)).unsatisfied_preferences
        suggested := (mkEvaluation aBad.name cur.id
          (oracleEvalData o round aBad.name)).suggested_changes
        willing_to_accept := (mkEvaluation aBad.name cur.id
          (oracleEvalData o round aBad.name)).willing_to_accept_payment
        willing_to_pay := (mkEvaluation aBad.name cur.id
          (oracleEvalData o round aBad.name)).willing_to_pay
        willingness_estimate := (mkEvaluation aBad.name cur.id
          (oracleEvalData o round aBad.name)).willingness_to_pay_estimate })
    rw [List.mem_filter]
    constructor
    · rw [List.map_map]
      simp only [List.mem_map, Function.comp]
      exact ⟨aBad, haBad, rfl⟩
    · simp only [decide_eq_true_eq]
      rw [hscoreEq aBad]
      exact hscoreBad
  rw [if_neg hunsat]
  rcases hcont with hc | hc <;> rw [hc]

/-- The side-payments mapping `post_proposal` stores for a given input dict
(independent of the board state). -/
def dataSidePayments (d : ProposalData) : List ((Option String × Option String) × ℚ) :=
  match d.side_payments with
  | none => []
  | some entries => parseSidePayments entries

theorem build_proposal_side_payments (space : NegotiationSpace) (author : String)
    (d : ProposalData) :
    (build_proposal space author d).side_payments = dataSidePayments d := rfl

/-- One full non-terminal round: evaluations succeed, no regression stop, not
all satisfied, continuation says continue, synthesis succeeds and the
synthesized proposal passes budget validation - the loop posts the new
proposal and recurses with the new average. -/
theorem run_rounds_step_continue
    (o : Oracle) (developer : DecentralizedAgent) (neighbors : List DecentralizedAgent)
    (space : NegotiationSpace) (cur : Proposal) (prev_avg : ℚ) (k : ℕ) (d : ProposalData) :
    ∀ (r : ℕ) (spaceE : NegotiationSpace),
      r = space.current_round + 1 →
      spaceE = (run_round_evaluations o developer neighbors r cur space.advance_round).1 →
      evalsOk o developer neighbors r →
      (1 < r → prev_avg - avgAt o developer neighbors r ≤ 1/5) →
      ((roundScores o developer neighbors r).all (fun s => decide ((4 : ℤ) ≤ s))) = false →
      should_continue_negotiation o r cur spaceE = CallResult.ok true →
      o.synthesisResult r = CallResult.ok d →
      (validate_side_payments_list (dataSidePayments d) (mkAgentsDict developer neighbors)).1
        = true →
      run_rounds o developer neighbors space cur prev_avg (k + 1)
        = (Event.evalRound r :: Event.synthesis r ::
            (run_rounds o developer neighbors (spaceE.post_proposal developer.name d).1
              (build_proposal spaceE developer.name d)
              (avgScores (roundScores o developer neighbors r)) k).1,
           (run_rounds o developer neighbors (spaceE.post_proposal developer.name d).1
              (build_proposal spaceE developer.name d)
              (avgScores (roundScores o developer neighbors r)) k).2) := by
  intro r spaceE hre hspE hok hreg hnotall hcont hsynth hval
  subst hre
  subst hspE
  have hr : (space.advance_round).current_round = space.current_round + 1 := rfl
  have hFF : firstFailure (run_round_evaluations o developer neighbors
      (space.current_round + 1) cur space.advance_round).2 = none := by
    rw [run_round_evaluations_spec]
    exact firstFailure_none_of_ok o developer neighbors _ cur hok
  have hSCr : scoresOf (run_round_evaluations o developer neighbors
      (space.current_round + 1) cur space.advance_round).2
      = roundScores o developer neighbors (space.current_round + 1) := by
    rw [run_round_evaluations_spec]
    exact scoresOf_of_ok o developer neighbors _ cur hok
  have hvalid : (((run_round_evaluations o developer neighbors (space.current_round + 1) cur
      space.advance_round).1.post_proposal developer.name d).1.validate_side_payments
        (build_proposal (run_round_evaluations o developer neighbors (space.current_round + 1)
          cur space.advance_round).1 developer.name d)
        (mkAgentsDict developer neighbors)).1 = true := by
    simp only [NegotiationSpace.validate_side_payments, build_proposal_side_payments]
    exact hval
  simp only [run_rounds, hr, hFF]
  rw [hSCr]
  rw [if_neg (by
    rintro ⟨h1, h2⟩
    exact absurd h2 (not_lt.2 (hreg h1)))]
  rw [if_neg (by simp [hnotall])]
  simp only [hcont, hsynth]
  rw [get_latest_post_proposal]
  dsimp only
  rw [if_neg (by
    rintro ⟨-, hf⟩
    rw [hvalid] at hf
    exact Bool.noConfusion hf)]

/-- The general exhaustion lemma: starting at any loop state whose board
satisfies the reachability invariants, if every remaining round's evaluations
succeed with not-unanimous scores, the continuation judgment always says
continue, synthesis always succeeds within budget, and no round-over-round
average drop exceeds `0.2`, then the loop consumes its entire round budget -
one evaluation and one synthesis per round - and ends with `None`. -/
theorem exhaustion_general (o : Oracle) (developer : DecentralizedAgent)
    (neighbors : List DecentralizedAgent)
    (hnodup : ((neighbors ++ [developer]).map DecentralizedAgent.name).Nodup) :
    ∀ (k : ℕ) (space : NegotiationSpace) (cur : Proposal) (prev_avg : ℚ),
      alookup space.evaluations cur.id = none →
      space.proposals.length = cur.id + 1 →
      (∀ p ∈ space.evaluations, p.1 < space.proposals.length) →
      (∀ r, space.current_round < r → r ≤ space.current_round + k →
        evalsOk o developer neighbors r) →
      (∀ r, space.current_round < r → r ≤ space.current_round + k →
        ((roundScores o developer neighbors r).all (fun s => decide ((4 : ℤ) ≤ s))) = false) →
      (∀ r, space.current_round < r → r ≤ space.current_round + k →
        o.continueResult r = ContinueOutcome.ok true ∨
          o.continueResult r = ContinueOutcome.parseFailure) →
      (∀ r, space.current_round < r → r ≤ space.current_round + k →
        ∃ d, o.synthesisResult r = CallResult.ok d ∧
          (validate_side_payments_list (dataSidePayments d)
            (mkAgentsDict developer neighbors)).1 = true) →
      (1 ≤ space.current_round → 1 ≤ k →
        prev_avg - avgAt o developer neighbors (space.current_round + 1) ≤ 1/5) →
      (∀ r, space.current_round + 2 ≤ r → r ≤ space.current_round + k →
        avgAt o developer neighbors (r - 1) - avgAt o developer neighbors r ≤ 1/5) →
      ∃ sp : NegotiationSpace,
        run_rounds o developer neighbors space cur prev_avg k
          = ((List.range' (space.current_round + 1) k).flatMap
              (fun r => [Event.evalRound r, Event.synthesis r]), sp, Except.ok none) ∧
        sp.current_round = space.current_round + k := by
  intro k
  induction k with
  | zero =>
    intro space cur prev_avg _ _ _ _ _ _ _ _ _
    exact ⟨space, by simp [run_rounds], rfl⟩
  | succ k ih =>
    intro space cur prev_avg hA hB hC hok hnotall hcont hsynth hentry hseq
    obtain ⟨d, hd, hval⟩ := hsynth (space.current_round + 1) (by omega) (by omega)
    have hok1 := hok (space.current_round + 1) (by omega) (by omega)
    have hnotall1 := hnotall (space.current_round + 1) (by omega) (by omega)
    have hcont1 := hcont (space.current_round + 1) (by omega) (by omega)
    have hAadv : alookup (space.advance_round).evaluations cur.id = none := hA
    have hscOk := should_continue_ok o developer neighbors (space.current_round + 1) cur
      space.advance_round hnodup hAadv hok1 hnotall1 hcont1
    have hstep := run_rounds_step_continue o developer neighbors space cur prev_avg k d
      (space.current_round + 1)
      (run_round_evaluations o developer neighbors (space.current_round + 1) cur
        space.advance_round).1
      rfl rfl hok1
      (fun h1 => hentry (by omega) (by omega))
      hnotall1 hscOk hd hval
    -- facts about the post-evaluation state
    have hfold : (run_round_evaluations o developer neighbors (space.current_round + 1) cur
        space.advance_round).1
        = (neighbors ++ [developer]).foldl
            (fun sp a => (evaluate_proposal o a (space.current_round + 1) cur sp).1)
            space.advance_round := by
      rw [run_round_evaluations_spec]
    have hEprop : ((run_round_evaluations o developer neighbors (space.current_round + 1) cur
        space.advance_round).1).proposals = space.proposals := by
      rw [hfold]
      exact (evalfold_proposals_round o (space.current_round + 1) cur (neighbors ++ [developer])
        space.advance_round).1
    have hEround : ((run_round_evaluations o developer neighbors (space.current_round + 1) cur
        space.advance_round).1).current_round = space.current_round + 1 := by
      rw [hfold]
      exact (evalfold_proposals_round o (space.current_round + 1) cur (neighbors ++ [developer])
        space.advance_round).2
    have hEkeys : ∀ p ∈ ((run_round_evaluations o developer neighbors (space.current_round + 1)
        cur space.advance_round).1).evaluations, p.1 < cur.id + 1 := by
      rw [hfold]
      intro p hp
      rcases evalfold_mem_keys o (space.current_round + 1) cur (neighbors ++ [developer])
          space.advance_round p hp with hmem | hid
      · simp only [dictKeys, List.mem_map] at hmem
        obtain ⟨q, hq, hq1⟩ := hmem
        have hlt := hC q hq
        rw [hB] at hlt
        omega
      · omega
    have hnewid : (build_proposal (run_round_evaluations o developer neighbors
        (space.current_round + 1) cur space.advance_round).1 developer.name d).id
        = cur.id + 1 := by
      show ((run_round_evaluations o developer neighbors (space.current_round + 1) cur
        space.advance_round).1).proposals.length = cur.id + 1
      rw [hEprop, hB]
    have hA' : alookup ((((run_round_evaluations o developer neighbors (space.current_round + 1)
        cur space.advance_round).1).post_proposal developer.name d).1).evaluations
        (build_proposal (run_round_evaluations o developer neighbors (space.current_round + 1)
          cur space.advance_round).1 developer.name d).id = none := by
      rw [hnewid]
      apply alookup_eq_none_of_not_mem
      intro hc
      simp only [dictKeys, List.mem_map] at hc
      obtain ⟨q, hq, hq1⟩ := hc
      have := hEkeys q hq
      omega
    have hB' : ((((run_round_evaluations o developer neighbors (space.current_round + 1)
        cur space.advance_round).1).post_proposal developer.name d).1).proposals.length
        = (build_proposal (run_round_evaluations o developer neighbors (space.current_round + 1)
          cur space.advance_round).1 developer.name d).id + 1 := by
      have hpost : ((((run_round_evaluations o developer neighbors (space.current_round + 1)
          cur space.advance_round).1).post_proposal developer.name d).1).proposals
          = ((run_round_evaluations o developer neighbors (space.current_round + 1)
            cur space.advance_round).1).proposals
            ++ [build_proposal (run_round_evaluations o developer neighbors
              (space.current_round + 1) cur space.advance_round).1 developer.name d] := rfl
      rw [hpost, hnewid]
      simp only [List.length_append, List.length_singleton]
      rw [hEprop, hB]
    have hC' : ∀ p ∈ ((((run_round_evaluations o developer neighbors (space.current_round + 1)
        cur space.advance_round).1).post_proposal developer.name d).1).evaluations,
        p.1 < ((((run_round_evaluations o developer neighbors (space.current_round + 1)
          cur space.advance_round).1).post_proposal developer.name d).1).proposals.length := by
      intro p hp
      have hlt := hEkeys p hp
      rw [hB', hnewid]
      omega
    have hcr3 : ((((run_round_evaluations o developer neighbors (space.current_round + 1)
        cur space.advance_round).1).post_proposal developer.name d).1).current_round
        = space.current_round + 1 := hEround
    obtain ⟨sp, hrun, hcr⟩ := ih
      (((run_round_evaluations o developer neighbors (space.current_round + 1)
        cur space.advance_round).1).post_proposal developer.name d).1
      (build_proposal (run_round_evaluations o developer neighbors (space.current_round + 1)
        cur space.advance_round).1 developer.name d)
      (avgScores (roundScores o developer neighbors (space.current_round + 1)))
      hA' hB' hC'
      (by intro r h1 h2; rw [hcr3] at h1 h2; exact hok r (by omega) (by omega))
      (by intro r h1 h2; rw [hcr3] at h1 h2; exact hnotall r (by omega) (by omega))
      (by intro r h1 h2; rw [hcr3] at h1 h2; exact hcont r (by omega) (by omega))
      (by intro r h1 h2; rw [hcr3] at h1 h2; exact hsynth r (by omega) (by omega))
      (by
        intro h1 hk1
        rw [hcr3]
        have hdrop := hseq (space.current_round + 2) (by omega) (by omega)
        simpa [avgAt] using hdrop)
      (by intro r h1 h2; rw [hcr3] at h1 h2; exact hseq r (by omega) (by omega))
    refine ⟨sp, ?_, by rw [hcr, hcr3]; omega⟩
    rw [hstep, hrun]
    rw [hcr3]
    have hrange : List.range' (space.current_round + 1) (k + 1)
        = (space.current_round + 1) :: List.range' (space.current_round + 1 + 1) k := by
      rfl
    rw [hrange, List.flatMap_cons]
    rfl

theorem flatMap_filterMap_evalRounds (l : List ℕ) :
    ((l.flatMap (fun r => [Event.evalRound r, Event.synthesis r])).filterMap
        (fun e => match e with | Event.evalRound r => some r | Event.synthesis _ => none)) = l := by
  induction l with
  | nil => rfl
  | cons a t ih => simp [List.flatMap_cons, List.filterMap_cons, ih]

/-- Claim C4: on a fresh board, with `max_rounds = N`, if in every round the
evaluations succeed but never unanimously satisfy (some score `< 4`), the
continuation judgment always answers continue (directly or via the recovered
parse failure), synthesis always succeeds within the side-payment budgets,
and no round-over-round regression occurs, then the driver performs exactly
`N` evaluation rounds - the evaluation events of its trace are exactly rounds
`1..N`, the round counter ends at `N` - and returns no result (`None`). -/
theorem claim4_round_exhaustion (o : Oracle) (developer : DecentralizedAgent)
    (neighbors : List DecentralizedAgent) (max_rounds : ℕ)
    (hnodup : ((neighbors ++ [developer]).map DecentralizedAgent.name).Nodup)
    (hok : ∀ r, 1 ≤ r → r ≤ max_rounds → evalsOk o developer neighbors r)
    (hnotall : ∀ r, 1 ≤ r → r ≤ max_rounds →
      ((roundScores o developer neighbors r).all (fun s => decide ((4 : ℤ) ≤ s))) = false)
    (hcont : ∀ r, 1 ≤ r → r ≤ max_rounds →
      o.continueResult r = ContinueOutcome.ok true ∨
        o.continueResult r = ContinueOutcome.parseFailure)
    (hsynth : ∀ r, 1 ≤ r → r ≤ max_rounds →
      ∃ d, o.synthesisResult r = CallResult.ok d ∧
        (validate_side_payments_list (dataSidePayments d)
          (mkAgentsDict developer neighbors)).1 = true)
    (hseq : ∀ r, 2 ≤ r → r ≤ max_rounds →
      avgAt o developer neighbors (r - 1) - avgAt o developer neighbors r ≤ 1/5) :
    ∃ sp : NegotiationSpace,
      run_negotiation o developer neighbors {} max_rounds
        = ((List.range' 1 max_rounds).flatMap
            (fun r => [Event.evalRound r, Event.synthesis r]), sp, Except.ok none) ∧
      sp.current_round = max_rounds ∧
      ((List.range' 1 max_rounds).flatMap
          (fun r => [Event.evalRound r, Event.synthesis r])).filterMap
        (fun e => match e with | Event.evalRound r => some r | Event.synthesis _ => none)
        = List.range' 1 max_rounds := by
  have h0 : ((({} : NegotiationSpace).post_proposal developer.name
      (initial_proposal_data neighbors)).1).current_round = 0 := rfl
  obtain ⟨sp, hrun, hcr⟩ := exhaustion_general o developer neighbors hnodup max_rounds
    (({} : NegotiationSpace).post_proposal developer.name (initial_proposal_data neighbors)).1
    (build_proposal {} developer.name (initial_proposal_data neighbors)) 0
    rfl rfl (by intro p hp; simp [NegotiationSpace.post_proposal] at hp)
    (by intro r h1 h2; rw [h0] at h1 h2; exact hok r (by omega) (by omega))
    (by intro r h1 h2; rw [h0] at h1 h2; exact hnotall r (by omega) (by omega))
    (by intro r h1 h2; rw [h0] at h1 h2; exact hcont r (by omega) (by omega))
    (by intro r h1 h2; rw [h0] at h1 h2; exact hsynth r (by omega) (by omega))
    (by intro h1 _; rw [h0] at h1; omega)
    (by intro r h1 h2; rw [h0] at h1 h2; exact hseq r (by omega) (by omega))
  refine ⟨sp, ?_, ?_, flatMap_filterMap_evalRounds _⟩
  · unfold run_negotiation
    dsimp only
    rw [get_latest_post_proposal]
    dsimp only
    rw [hrun, h0]
  · rw [hcr, h0]
    omega

theorem claim4_round_exhaustion_witness :
    ∃ sp : NegotiationSpace,
      run_negotiation oracleW2 devW [nbrW] {} 2
        = ([Event.evalRound 1, Event.synthesis 1, Event.evalRound 2, Event.synthesis 2],
           sp, Except.ok none) ∧
      sp.current_round = 2 := by
  have havg : ∀ m, avgAt oracleW2 devW [nbrW] m = 3 := by
    intro m
    simp [avgAt, roundScores, avgScores, oracleScore, oracleW2, devW, nbrW]
  obtain ⟨sp, hrun, hcr, -⟩ := claim4_round_exhaustion oracleW2 devW [nbrW] 2
    (by decide)
    (fun _ _ _ _ _ => ⟨{ satisfaction_score := 3 }, rfl⟩)
    (fun _ _ _ => rfl)
    (fun _ _ _ => Or.inl rfl)
    (fun _ _ _ => ⟨{}, rfl, rfl⟩)
    (by
      intro r _ _
      rw [havg, havg]
      norm_num)
  exact ⟨sp, by rw [hrun]; rfl, hcr⟩

end Negotiation
